import Mathlib

/-! # cache_copy: the cache-validated copy engine

A shallow embedding of `src/main.go` (`runCopyWorkers`, the staleness passes of
`main`, `deleteExtraFiles`) and `src/core/cache.go`, `src/core/helpers.go`.

Conventions of the embedding.

* A Go `map[string]V` is an association list read through `mget` (first
  binding wins); `mset` and `mdel` keep at most one binding per key they touch.
* Go `int64` values are `Int`; the arithmetic of the age threshold in `main` is
  wrapped with `wrap64`, sums of file sizes are not.
* The source tree is static and is read through the relative path; the
  destination tree is a second map keyed by the same relative paths
  (`filepath.Join(root, rel)` is injective on the cleaned relative paths that
  `filepath.Walk` and `filepath.Rel` produce).
* The 64-bit fingerprint (xxhash) and SHA-256 are library code: they are
  parameters `fp` and `sum` of the definitions that call them.
* Outcomes of operating-system calls that the program cannot predict (a failing
  open, sync, close, ...) are read from a record of answers, `Answers`.
* A run of `runCopyWorkers` with at least one worker and a buffer of positive
  size is one worker taking the files in the order of the queue; without a
  worker no file is taken, and a buffer size that is not positive ends the run
  in a panic.
* Log lines are not modelled.
-/

namespace CacheCopy

/-! ## Go maps as association lists -/

/-- Lookup `m[k]` with the comma-ok result as an `Option`. -/
def mget {β : Type} : List (String × β) → String → Option β
  | [], _ => none
  | (k', v) :: m, k => if k' = k then some v else mget m k

/-- The statement `delete(m, k)`. -/
def mdel {β : Type} : List (String × β) → String → List (String × β)
  | [], _ => []
  | (k', v) :: m, k => if k' = k then mdel m k else (k', v) :: mdel m k

/-- The statement `m[k] = v`. -/
def mset {β : Type} (m : List (String × β)) (k : String) (v : β) : List (String × β) :=
  (k, v) :: mdel m k

/-! ## core/cache.go -/

/-- CacheEntry holds metadata about a copied file for cache validation. -/
structure CacheEntry where
  Size : Int
  Hash : Nat
  ModTime : Int
deriving DecidableEq, Repr

/-- The field `data` of `GlobalCache`: relative path to entry. -/
abbrev GlobalCache := List (String × CacheEntry)

/-- Update adds or updates a cache entry for a file. -/
def Update (c : GlobalCache) (relPath : String) (size : Int) (hash : Nat) (modTime : Int) :
    GlobalCache :=
  mset c relPath ⟨size, hash, modTime⟩

/-- Remove deletes a cache entry for a file or directory. -/
def Remove (c : GlobalCache) (relPath : String) : GlobalCache :=
  mdel c relPath

/-- Keys returns all cache entry keys (relative paths). -/
def Keys (c : GlobalCache) : List String :=
  c.map Prod.fst

/-- IsUpToDate checks if a cache entry exists for the given path and returns it. -/
def IsUpToDate (c : GlobalCache) (relPath : String) : Option CacheEntry :=
  mget c relPath

/-! ## The file system seen by a worker -/

/-- A file: its bytes and whether `Mode().IsRegular()` holds. -/
structure File where
  content : List Nat
  IsRegular : Bool
deriving DecidableEq, Repr

/-- The part of `os.FileInfo` the program reads. -/
structure FileInfo where
  Size : Int
  IsRegular : Bool
deriving DecidableEq, Repr

/-- A directory tree, keyed by relative path. -/
abbrev FS := List (String × File)

/-- The call `os.Stat(path)`: `none` stands for a non-nil error. -/
def Stat (fs : FS) (path : String) : Option FileInfo :=
  match mget fs path with
  | some f => some ⟨(f.content.length : Int), f.IsRegular⟩
  | none => none

/-- FileHash computes the fingerprint of a file; `ok = false` is a failing open or read,
`none` a non-nil error. -/
def FileHash (fp : List Nat → Nat) (ok : Bool) (fs : FS) (path : String) : Option Nat :=
  match mget fs path with
  | some f => if ok then some (fp f.content) else none
  | none => none

/-! ## core/helpers.go: opening with retries -/

/-- The error numbers the retry loops tell apart, and the others. -/
inductive Errno
  | EINTR | EAGAIN | EIO | EBUSY | ENOENT | ENOTDIR | EACCES | ENOSPC
  | errno (n : Nat)
deriving DecidableEq, Repr

/-- An error of `os.Open` or `os.Create`: a `*os.PathError` or anything else. -/
inductive OpenError
  | pathError (e : Errno)
  | otherError
deriving DecidableEq, Repr

/-- One attempt of `os.Open` or `os.Create`. -/
inductive OpenResult
  | opened
  | failed (e : OpenError)
deriving DecidableEq, Repr

/-- The `switch errno.Err` of the retry loops. -/
def isRetryable : OpenError → Bool
  | .pathError .EINTR => true
  | .pathError .EAGAIN => true
  | .pathError Errno.EIO => true
  | .pathError .EBUSY => true
  | _ => false

/-- What a retry loop returns: whether `f` is non-nil, `err`, and the number of calls made. -/
structure RetryResult where
  file : Bool
  err : Option OpenError
  attempts : Nat
deriving DecidableEq, Repr

/-- The loop `for i := ...; i < maxRetries; i++` started at attempt `i` with `left`
iterations to go and `err` as left by the attempt before. -/
def retryLoop (osOpen : Nat → OpenResult) : Nat → Nat → Option OpenError → RetryResult
  | _, 0, err => ⟨false, err, 0⟩
  | i, left + 1, _ =>
    match osOpen i with
    | .opened => ⟨true, none, 1⟩
    | .failed e =>
      if isRetryable e then
        let r := retryLoop osOpen (i + 1) left (some e)
        ⟨r.file, r.err, r.attempts + 1⟩
      else ⟨false, some e, 1⟩

/-- OpenWithRetry wraps os.Open with retry logic. -/
def OpenWithRetry (osOpen : Nat → OpenResult) (maxRetries : Nat) : RetryResult :=
  retryLoop osOpen 0 maxRetries none

/-- CreateWithRetry wraps os.Create with retry logic. -/
def CreateWithRetry (osCreate : Nat → OpenResult) (maxRetries : Nat) : RetryResult :=
  retryLoop osCreate 0 maxRetries none

/-! ## main.go: the worker of runCopyWorkers -/

/-- Answers of the operating system while one file is processed. -/
structure Answers where
  /-- Whether `core.FileHash(srcPath)` of the up-to-date check succeeds. -/
  srcHashOk : Bool
  /-- Whether `core.FileHash(dstPath)` of the validation succeeds. -/
  dstHashOk : Bool
  /-- Whether `os.MkdirAll(filepath.Dir(dstPath), os.ModePerm)` succeeds. -/
  mkdirAllOk : Bool
  /-- Whether `os.Remove(dstPath)` succeeds. -/
  removeOk : Bool
  /-- The attempts of `os.Open(srcPath)`. -/
  openSrc : Nat → OpenResult
  /-- The attempts of `os.Create(dstPath)`. -/
  createDst : Nat → OpenResult
  /-- The call `io.CopyBuffer`: `none` copies everything, `some n` fails after `n` bytes. -/
  copyErrAt : Option Nat
  /-- The attempts of `outFile.Sync()`. -/
  syncOk : Nat → Bool
  /-- Whether `outFile.Close()` succeeds. -/
  closeDstOk : Bool
  /-- Whether `in.Close()` succeeds. -/
  closeSrcOk : Bool
  /-- Whether `core.FileHash(srcPath)` after the copy succeeds. -/
  srcHashAfterOk : Bool
  /-- The value of `time.Now().Unix()`. -/
  now : Int
  /-- Whether `now.Sub(lastProgressUpdate) > 100*time.Millisecond`. -/
  progressDue : Bool

/-- The fatal conditions of a worker, one per call of `fatal`. -/
inductive FatalAt
  | mkdirAll | removeDst | openSrc | createDst | sync | closeDst | closeSrc | copy
deriving DecidableEq, Repr

/-- How the processing of one file ends. -/
inductive Outcome
  /-- The source could not be stat'ed: logged, `continue`. -/
  | statFailed
  /-- The value `shouldCopy = false`. -/
  | skipped
  /-- The value `shouldCopy = true` and the copy went through. -/
  | copied
  /-- The sink `fatal` was called and the worker returned. -/
  | fatal (at_ : FatalAt)
deriving DecidableEq, Repr

/-- What a worker reads and writes besides the static source tree. -/
structure State where
  cache : GlobalCache
  dst : FS
  copiedBytes : Int
  /-- The calls of `progress(copiedBytes, totalBytes)`, latest first. -/
  progressCalls : List (Int × Int)
deriving DecidableEq, Repr

/-- The flags and constants of one run. -/
structure Config where
  noCache : Bool
  validate : Bool
  totalBytes : Int
deriving DecidableEq, Repr

/-- Lines 67-152: the value of `shouldCopy` and the cache after the check. -/
def checkFile (fp : List Nat → Nat) (cfg : Config) (src : FS) (relPath : String)
    (srcInfo : FileInfo) (io : Answers) (cache : GlobalCache) (dst : FS) : Bool × GlobalCache :=
  if !cfg.noCache && !cfg.validate then
    match IsUpToDate cache relPath with
    | some entry =>
      if entry.Size = srcInfo.Size then
        match FileHash fp io.srcHashOk src relPath with
        | some hash =>
          if entry.Hash = hash then
            match Stat dst relPath with
            | some dstInfo => if dstInfo.IsRegular then (false, cache) else (true, cache)
            | none => (true, cache)
          else (true, cache)
        | none => (true, cache)
      else (true, cache)
    | none => (true, cache)
  else if cfg.validate then
    match Stat dst relPath with
    | some dstInfo =>
      if dstInfo.IsRegular then
        if srcInfo.Size = dstInfo.Size then
          match FileHash fp io.srcHashOk src relPath, FileHash fp io.dstHashOk dst relPath with
          | some srcHash, some dstHash =>
            if srcHash = dstHash then
              (false, if !cfg.noCache then Update cache relPath srcInfo.Size srcHash io.now
                      else cache)
            else (true, cache)
          | _, _ => (true, cache)
        else (true, cache)
      else (true, cache)
    | none => (true, cache)
  else (true, cache)

/-- The loop `for i := 0; i < retries; i++` around `outFile.Sync()`, `retries = 3`:
`true` when an attempt succeeds, `false` when the last one has failed. -/
def syncWithRetry (syncOk : Nat → Bool) : Bool :=
  syncOk 0 || syncOk 1 || syncOk 2

/-- The bytes `io.CopyBuffer` has written to the destination. -/
def copiedContent (content : List Nat) : Option Nat → List Nat
  | none => content
  | some n => content.take n

/-- Lines 170-248: the branch `if shouldCopy`. Returns the destination tree, the cache
and `none` when the copy went through or the fatal condition met. -/
def copyFile (fp : List Nat → Nat) (cfg : Config) (src : FS) (relPath : String)
    (srcInfo : FileInfo) (io : Answers) (cache : GlobalCache) (dst : FS) :
    FS × GlobalCache × Option FatalAt :=
  if !io.mkdirAllOk then (dst, cache, some .mkdirAll) else
  if (Stat dst relPath).isSome && !io.removeOk then (dst, cache, some .removeDst) else
  let dst1 := mdel dst relPath
  if (OpenWithRetry io.openSrc 5).err.isSome then (dst1, cache, some .openSrc) else
  if (CreateWithRetry io.createDst 5).err.isSome then (dst1, cache, some .createDst) else
  let srcContent := match mget src relPath with
    | some f => f.content
    | none => []
  let dst2 := mset dst1 relPath ⟨copiedContent srcContent io.copyErrAt, true⟩
  if !syncWithRetry io.syncOk then (dst2, cache, some .sync) else
  if !io.closeDstOk then (dst2, cache, some .closeDst) else
  if !io.closeSrcOk then (dst2, cache, some .closeSrc) else
  if io.copyErrAt.isSome then (dst2, cache, some .copy) else
  if !cfg.noCache then
    let hash := (FileHash fp io.srcHashAfterOk src relPath).getD 0
    (dst2, Update cache relPath srcInfo.Size hash io.now, none)
  else (dst2, cache, none)

/-- Lines 250-257: the progress accounting after a file. -/
def addProgress (cfg : Config) (size : Int) (io : Answers) (copiedBytes : Int)
    (calls : List (Int × Int)) : Int × List (Int × Int) :=
  let copiedBytes1 := copiedBytes + size
  if io.progressDue || copiedBytes1 = cfg.totalBytes then
    (copiedBytes1, (copiedBytes1, cfg.totalBytes) :: calls)
  else (copiedBytes1, calls)

/-- The body of the loop `for relPath := range fileChan` (lines 57-258). -/
def processFile (fp : List Nat → Nat) (cfg : Config) (src : FS) (relPath : String)
    (io : Answers) (st : State) : State × Outcome :=
  match Stat src relPath with
  | none => (st, .statFailed)
  | some srcInfo =>
    let chk := checkFile fp cfg src relPath srcInfo io st.cache st.dst
    if chk.1 then
      match copyFile fp cfg src relPath srcInfo io chk.2 st.dst with
      | (dst1, cache1, some f) => (⟨cache1, dst1, st.copiedBytes, st.progressCalls⟩, .fatal f)
      | (dst1, cache1, none) =>
        let pr := addProgress cfg srcInfo.Size io st.copiedBytes st.progressCalls
        (⟨cache1, dst1, pr.1, pr.2⟩, .copied)
    else
      let pr := addProgress cfg srcInfo.Size io st.copiedBytes st.progressCalls
      (⟨chk.2, st.dst, pr.1, pr.2⟩, .skipped)

/-- One worker draining the queue: the files in their order of arrival, each with the
answers it gets; the worker returns at the first fatal condition. Yields the final state
and the outcome of every file it has processed. -/
def runWorker (fp : List Nat → Nat) (cfg : Config) (src : FS) :
    List (String × Answers) → State → State × List Outcome
  | [], st => (st, [])
  | (relPath, io) :: jobs, st =>
    match processFile fp cfg src relPath io st with
    | (st1, .fatal f) => (st1, [.fatal f])
    | (st1, o) =>
      let r := runWorker fp cfg src jobs st1
      (r.1, o :: r.2)

/-- How a call of `runCopyWorkers` ends: the state left, the outcome of every file that was
processed to its end, and whether the process died of a run-time panic. -/
structure Run where
  state : State
  outcomes : List Outcome
  panicked : Bool
deriving DecidableEq, Repr

/-- Lines 170-197 with an empty buffer `buf`: the copy branch up to the call
`io.CopyBuffer(outFile, in, buf)`, which panics (`empty buffer in CopyBuffer`) before it
reads or writes. Returns the destination tree and the fatal condition met before the call,
`none` when the call is reached: the destination file has then been created empty. -/
def copyFileEmptyBuffer (relPath : String) (io : Answers) (dst : FS) : FS × Option FatalAt :=
  if !io.mkdirAllOk then (dst, some .mkdirAll) else
  if (Stat dst relPath).isSome && !io.removeOk then (dst, some .removeDst) else
  let dst1 := mdel dst relPath
  if (OpenWithRetry io.openSrc 5).err.isSome then (dst1, some .openSrc) else
  if (CreateWithRetry io.createDst 5).err.isSome then (dst1, some .createDst) else
  (mset dst1 relPath ⟨[], true⟩, none)

/-- One worker whose buffer is empty (`bufSize = 0`): the files are stat'ed, checked and
skipped as in `processFile`; the first file that has to be copied ends the worker, on a
fatal condition met before `io.CopyBuffer` or on the panic of that call. -/
def runWorkerEmptyBuffer (fp : List Nat → Nat) (cfg : Config) (src : FS) :
    List (String × Answers) → State → Run
  | [], st => ⟨st, [], false⟩
  | (relPath, io) :: jobs, st =>
    match Stat src relPath with
    | none =>
      let r := runWorkerEmptyBuffer fp cfg src jobs st
      ⟨r.state, .statFailed :: r.outcomes, r.panicked⟩
    | some srcInfo =>
      let chk := checkFile fp cfg src relPath srcInfo io st.cache st.dst
      if chk.1 then
        match copyFileEmptyBuffer relPath io st.dst with
        | (dst1, some f) =>
          ⟨⟨chk.2, dst1, st.copiedBytes, st.progressCalls⟩, [.fatal f], false⟩
        | (dst1, none) => ⟨⟨chk.2, dst1, st.copiedBytes, st.progressCalls⟩, [], true⟩
      else
        let pr := addProgress cfg srcInfo.Size io st.copiedBytes st.progressCalls
        let r := runWorkerEmptyBuffer fp cfg src jobs ⟨chk.2, st.dst, pr.1, pr.2⟩
        ⟨r.state, .skipped :: r.outcomes, r.panicked⟩

/-- The call `runCopyWorkers(fileList, ..., bufSize, ..., workers, totalBytes, ...)`.
The loop `for i := 0; i < workers; i++` of line 48 starts no goroutine when `workers <= 0`:
no file is taken from the queue and the call returns. Every goroutine allocates
`make([]byte, bufSize)` (line 55), which panics for a negative size, and hands the buffer to
`io.CopyBuffer` (line 197), which panics for an empty one. With at least one worker and a
buffer of positive size, taken to be one the machine can allocate, the files are processed
one at a time in their order of arrival, each with the answers it gets: every access to
the cache is under its lock and the processing of a file reads and writes the cache and the
destination at its own relative path only, so a run of several workers is represented by
the order in which the files are taken. A fatal condition ends the run: the worker returns
and the sink `fatal` of the terminal mode ends the process (`os.Exit(1)`). -/
def runCopyWorkers (fp : List Nat → Nat) (cfg : Config) (src : FS) (workers bufSize : Int)
    (jobs : List (String × Answers)) (cache : GlobalCache) (dst : FS) : Run :=
  if workers ≤ 0 then ⟨⟨cache, dst, 0, []⟩, [], false⟩
  else if bufSize < 0 then ⟨⟨cache, dst, 0, []⟩, [], true⟩
  else if bufSize = 0 then runWorkerEmptyBuffer fp cfg src jobs ⟨cache, dst, 0, []⟩
  else
    let r := runWorker fp cfg src jobs ⟨cache, dst, 0, []⟩
    ⟨r.1, r.2, false⟩

/-- Lines 531-539 of `main`: `totalBytes`, the sum of the sizes of the listed files that can
be stat'ed. -/
def totalBytesOf (src : FS) (fileList : List String) : Int :=
  fileList.foldl (fun total relPath =>
    match Stat src relPath with
    | some info => total + info.Size
    | none => total) 0

/-! ## main.go: removing old cache entries -/

/-- The value of an `int64` expression: the integer wrapped to 64 bits, two's complement. -/
def wrap64 (x : Int) : Int := (x + 2 ^ 63) % 2 ^ 64 - 2 ^ 63

/-- The value `maxAgeSeconds := int64(*maxCacheAge) * 24 * 60 * 60`. -/
def maxAgeSeconds (maxCacheAge : Int) : Int :=
  wrap64 (wrap64 (wrap64 (wrap64 maxCacheAge * 24) * 60) * 60)

/-- The test `entry.ModTime > 0 && now-entry.ModTime > maxAgeSeconds` of line 487. -/
def isOld (now maxAge : Int) (entry : CacheEntry) : Bool :=
  decide (entry.ModTime > 0) && decide (wrap64 (now - entry.ModTime) > maxAge)

/-- The test `entry.ModTime > 0 && now-entry.ModTime <= maxAgeSeconds` of line 499. -/
def isRecent (now maxAge : Int) (entry : CacheEntry) : Bool :=
  decide (entry.ModTime > 0) && decide (wrap64 (now - entry.ModTime) ≤ maxAge)

/-- The body of the loop of lines 485-490 for one key. -/
def removeIfOld (now maxAge : Int) (c : GlobalCache) (key : String) : GlobalCache :=
  match IsUpToDate c key with
  | some entry => if isOld now maxAge entry then Remove c key else c
  | none => c

/-- Lines 481-491: the loop over `cache.Keys()` that removes old cache entries. -/
def removeOldEntries (now maxCacheAge : Int) (c : GlobalCache) : GlobalCache :=
  (Keys c).foldl (removeIfOld now (maxAgeSeconds maxCacheAge)) c

/-- Lines 495-503: the loop that computes `allOld` over the keys still to visit. -/
def allOldLoop (now maxAge : Int) (c : GlobalCache) : List String → Bool
  | [] => true
  | key :: keys =>
    match IsUpToDate c key with
    | some entry => if isRecent now maxAge entry then false else allOldLoop now maxAge c keys
    | none => allOldLoop now maxAge c keys

/-- Lines 481-508 of `main`: the cache after the removal of old entries and the mapping held
by the cache file, `none` when the file has been deleted. The file is written by the
`cache.SaveCache()` of line 492 and deleted by the `os.Remove(cachePath)` of line 507. -/
def ageEviction (now maxCacheAge : Int) (c : GlobalCache) : GlobalCache × Option GlobalCache :=
  let c1 := removeOldEntries now maxCacheAge c
  let allOld := allOldLoop now (maxAgeSeconds maxCacheAge) c1 (Keys c1)
  if allOld && decide ((Keys c1).length > 0) then (c1, none) else (c1, some c1)

/-! ## core/cache.go: LocalCacheFile

Go strings are read as lists of characters (`String.data`). The functions of
`path/filepath` are the Unix ones (`filepath.Separator = '/'`), modelled on path elements. -/

/-- The elements of a path between its separators: `strings.Split(path, "/")`. -/
def splitSlash : List Char → List (List Char)
  | [] => [[]]
  | c :: cs =>
    if c = '/' then [] :: splitSlash cs
    else
      match splitSlash cs with
      | [] => [[c]]
      | e :: es => (c :: e) :: es

/-- The output buffer of `filepath.Clean`: the elements written, last first, and the number
of leading `..` elements that cannot be backtracked over. -/
structure CleanState where
  out : List (List Char)
  dotdot : Nat
deriving DecidableEq, Repr

/-- The `switch` of the loop of `filepath.Clean` for one path element. -/
def cleanStep (rooted : Bool) (st : CleanState) (elem : List Char) : CleanState :=
  if elem = [] ∨ elem = ['.'] then st
  else if elem = ['.', '.'] then
    if st.out.length > st.dotdot then ⟨st.out.tail, st.dotdot⟩
    else if !rooted then ⟨elem :: st.out, st.dotdot + 1⟩
    else st
  else ⟨elem :: st.out, st.dotdot⟩

/-- The elements joined by separators. -/
def joinSlash : List (List Char) → List Char
  | [] => []
  | [e] => e
  | e :: es => e ++ '/' :: joinSlash es

/-- The function `filepath.Clean`. -/
def Clean (path : List Char) : List Char :=
  if path = [] then ['.']
  else
    let rooted := path.head? = some '/'
    let st := (splitSlash path).foldl (cleanStep rooted) ⟨[], 0⟩
    let body := joinSlash st.out.reverse
    if rooted then '/' :: body
    else if body = [] then ['.'] else body

/-- The function `filepath.Join` of two elements. -/
def Join (a b : List Char) : List Char :=
  if a = [] then (if b = [] then [] else Clean b)
  else Clean (a ++ '/' :: b)

/-- The function `filepath.Abs`; `wd` is the result of `os.Getwd()`, `none` its error, on
which `Abs` returns the empty string (and an error that `LocalCacheFile` drops). -/
def Abs (wd : Option (List Char)) (path : List Char) : List Char :=
  if path.head? = some '/' then Clean path
  else
    match wd with
    | none => []
    | some w => Join w path

/-- The call `strings.TrimRight(s, string(filepath.Separator))`. -/
def trimRightSlash (s : List Char) : List Char :=
  (s.reverse.dropWhile (fun c => c = '/')).reverse

/-- The function `filepath.Base`. -/
def Base (path : List Char) : List Char :=
  if path = [] then ['.']
  else
    let last := ((trimRightSlash path).reverse.takeWhile (fun c => c ≠ '/')).reverse
    if last = [] then ['/'] else last

/-- The two calls `strings.ReplaceAll(s, ":", "_")` and `strings.ReplaceAll(s, " ", "_")`. -/
def sanitize (s : List Char) : List Char :=
  s.map (fun c => if c = ':' ∨ c = ' ' then '_' else c)

/-- A hexadecimal digit of the verb `%x`. -/
def hexDigit (n : Nat) : Char :=
  match n % 16 with
  | 0 => '0' | 1 => '1' | 2 => '2' | 3 => '3' | 4 => '4' | 5 => '5' | 6 => '6' | 7 => '7'
  | 8 => '8' | 9 => '9' | 10 => 'a' | 11 => 'b' | 12 => 'c' | 13 => 'd' | 14 => 'e'
  | _ => 'f'

/-- The text `fmt.Sprintf("%x", sum)` of a 32-byte digest. -/
def hexOfSum (sum : Fin 32 → Nat) : List Char :=
  (List.ofFn sum).flatMap (fun b => [hexDigit (b % 256 / 16), hexDigit (b % 256)])

/-- The file name built by `LocalCacheFile` from the two absolute paths. -/
def cacheFileName (sum : List Char → Fin 32 → Nat) (absSrc absDst : List Char) : List Char :=
  let hash := (hexOfSum (sum (absSrc ++ '|' :: absDst))).take 8
  let srcBase := sanitize (Base (trimRightSlash absSrc))
  let dstBase := sanitize (Base (trimRightSlash absDst))
  srcBase ++ "_to_".data ++ dstBase ++ "_".data ++ hash

/-- The function `LocalCacheFile`; `sum` is `sha256.Sum256` and `wd` the working directory
read by `filepath.Abs`. -/
def LocalCacheFile (sum : List Char → Fin 32 → Nat) (wd : Option (List Char))
    (src dst : String) : String :=
  String.mk (".cache_cache_copy/".data ++
    cacheFileName sum (Abs wd src.data) (Abs wd dst.data) ++ ".json".data)

/-! ## main.go: deleteExtraFiles

The two trees are lists of entries below a root that is a directory. `os.Stat` of a path
below a root answers as the operating system does: `ENOENT` when the path is missing and
`ENOTDIR` when an element before the last names something that is not a directory.
`os.IsNotExist` holds of `ENOENT` only. -/

/-- An entry of a tree: the elements of its path relative to the root, and `IsDir()`. -/
structure TreeEntry where
  path : List String
  isDir : Bool
deriving DecidableEq, Repr

/-- The entries below the root of a tree, in the order `filepath.Walk` visits them. -/
abbrev Tree := List TreeEntry

/-- The call `os.Stat(filepath.Join(root, rel))`: `IsDir()` of the entry, or the error. -/
def statTree (t : Tree) (rel : List String) : Except Errno Bool :=
  if rel = [] then .ok true
  else
    match t.find? (fun e => e.path = rel) with
    | some e => .ok e.isDir
    | none =>
      if t.any (fun e => !e.isDir && decide (e.path <+: rel)) then .error .ENOTDIR
      else .error .ENOENT

/-- The function `os.IsNotExist` on the result of a call. -/
def IsNotExist : Except Errno Bool → Bool
  | .error .ENOENT => true
  | _ => false

/-- Exists checks if a given file or directory path exists on disk. -/
def Exists (t : Tree) (rel : List String) : Bool :=
  !IsNotExist (statTree t rel)

/-- The text of `filepath.Join(root, rel)` for a cleaned root and the elements of `rel`. -/
def joinRoot (root : String) (rel : List String) : String :=
  if rel = [] then root else root ++ "/" ++ String.intercalate "/" rel

/-- What `deleteExtraFiles` has done when it returns. -/
structure MirrorResult where
  /-- The destination tree. -/
  dst : Tree
  cache : GlobalCache
  /-- The path on which the returned error was met, `none` for a nil error. -/
  err : Option (List String)
deriving DecidableEq, Repr

/-- The state of the walk: the destination tree and the map `deletedDirs`. -/
structure WalkState where
  dst : Tree
  deletedDirs : List (List String)
deriving DecidableEq, Repr

/-- The function passed to `filepath.Walk` (lines 784-807) at one entry of the destination;
`removeOk` tells whether `os.Remove` succeeds. The error is the path it was met on. -/
def visitEntry (src : Tree) (removeOk : List String → Bool) (st : WalkState)
    (e : TreeEntry) : Except (List String) WalkState :=
  if !Exists st.dst e.path then .ok st
  else if IsNotExist (statTree src e.path) then
    if e.isDir then .ok ⟨st.dst, e.path :: st.deletedDirs⟩
    else if removeOk e.path then .ok ⟨st.dst.filter (fun x => x.path ≠ e.path), st.deletedDirs⟩
    else .error e.path
  else .ok st

/-- The call `filepath.Walk(dstDir, ...)` over the entries still to visit. -/
def walkDst (src : Tree) (removeOk : List String → Bool) :
    List TreeEntry → WalkState → WalkState × Option (List String)
  | [], st => (st, none)
  | e :: es, st =>
    match visitEntry src removeOk st e with
    | .ok st1 => walkDst src removeOk es st1
    | .error p => (st, some p)

/-- The loop `for dir := range deletedDirs` (lines 811-820); `removeAllOk` tells whether
`os.RemoveAll` succeeds. The cache key removed is the destination path of the directory. -/
def removeDeletedDirs (dstDir : String) (removeAllOk : List String → Bool) :
    List (List String) → Tree → GlobalCache → MirrorResult
  | [], dst, cache => ⟨dst, cache, none⟩
  | dir :: dirs, dst, cache =>
    if removeAllOk dir then
      removeDeletedDirs dstDir removeAllOk dirs
        (dst.filter (fun x => !decide (dir <+: x.path))) (Remove cache (joinRoot dstDir dir))
    else ⟨dst, cache, some dir⟩

/-- deleteExtraFiles removes files and directories from the destination that do not exist in
the source. It also removes corresponding entries from the cache. The walk starts at the
root of the destination, whose relative path `.` is the source root. -/
def deleteExtraFiles (dstDir : String) (src dst : Tree) (removeOk removeAllOk : List String → Bool)
    (cache : GlobalCache) : MirrorResult :=
  match walkDst src removeOk (⟨[], true⟩ :: dst) ⟨dst, []⟩ with
  | (st, some p) => ⟨st.dst, cache, some p⟩
  | (st, none) => removeDeletedDirs dstDir removeAllOk st.deletedDirs.reverse st.dst cache

/-- The source of the mirror example: the regular file `a`. -/
def mirrorSrc : Tree := [⟨["a"], false⟩]

/-- The destination of the mirror example: the directory `a` with the file `a/x`. -/
def mirrorDst : Tree := [⟨["a"], true⟩, ⟨["a", "x"], false⟩]

/-! ## core/cache.go and main.go: cache entries of missing source files -/

/-- CleanUpMissingFiles removes cache entries for files that no longer exist in the source
directory. `stat key` is the result of `os.Stat(filepath.Join(srcDir, key))`; the loop
`for path := range c.data` runs over the keys. -/
def CleanUpMissingFiles (stat : String → Except Errno Bool) (c : GlobalCache) : GlobalCache :=
  (Keys c).foldl (fun c path => if IsNotExist (stat path) then mdel c path else c) c

/-- Lines 439-456 of `main`: the keys whose source is missing are collected in
`staleCacheKeys`, then removed. -/
def autoClean (stat : String → Except Errno Bool) (c : GlobalCache) : GlobalCache :=
  ((Keys c).filter (fun relPath => IsNotExist (stat relPath))).foldl Remove c

/-- The elements of a cleaned relative path. -/
def relElems (relPath : String) : List String :=
  ((splitSlash relPath.data).map String.mk).filter (fun e => e ≠ "")

/-- The destination of the second mirror example: the file `old.txt` and the directory `sub`
with the file `sub/f.txt`, none of them in the source. -/
def orphanDst : Tree := [⟨["old.txt"], false⟩, ⟨["sub"], true⟩, ⟨["sub", "f.txt"], false⟩]

/-- A cache with entries for the two files of `orphanDst`. -/
def orphanCache : GlobalCache := [("old.txt", ⟨3, 7, 1000⟩), ("sub/f.txt", ⟨4, 9, 1000⟩)]

/-! ## core/helpers.go: ParseSize

The call `fmt.Sscanf(s, "%d%s", &size, &unit)` is library code, modelled on lists of
characters after `fmt/scan.go`: `%d` skips white space, takes an optional sign and decimal
digits and fails on a value outside `int`; `%s` skips white space, fails at the end of the
input and takes the characters up to the next white space. A newline met while skipping is
an error. -/

/-- The table `space` of `fmt/scan.go`. -/
def isSpace (c : Char) : Bool :=
  let n := c.toNat
  (9 ≤ n && n ≤ 13) || n = 32 || n = 133 || n = 160 || n = 5760 || (8192 ≤ n && n ≤ 8202) ||
    n = 8232 || n = 8233 || n = 8239 || n = 8287 || n = 12288

/-- The method `SkipSpace` of a scanner on which a newline is no space: the rest of the
input, or `none` for the error `unexpected newline`. -/
def skipSpace : List Char → Option (List Char)
  | [] => some []
  | c :: cs =>
    if c = '\n' then none
    else if isSpace c then skipSpace cs
    else some (c :: cs)

/-- The value of a string of decimal digits. -/
def digitsValue (ds : List Char) : Int :=
  ds.foldl (fun acc c => acc * 10 + ((c.toNat - 48 : Nat) : Int)) 0

/-- The verb `%d` into an `int` of 64 bits: the value and the rest of the input, `none` for
an error. -/
def scanInt (s : List Char) : Option (Int × List Char) :=
  match skipSpace s with
  | none => none
  | some [] => none
  | some (c :: cs) =>
    let neg := decide (c = '-')
    let r := if c = '-' ∨ c = '+' then cs else c :: cs
    let ds := r.takeWhile Char.isDigit
    if ds = [] then none
    else
      let i := if neg then -digitsValue ds else digitsValue ds
      if i < -(2 ^ 63) ∨ 2 ^ 63 ≤ i then none
      else some (i, r.dropWhile Char.isDigit)

/-- The verb `%s`: the next word, `none` for an error (a newline, or the end of the input). -/
def scanWord (s : List Char) : Option (List Char) :=
  match skipSpace s with
  | none => none
  | some [] => none
  | some r => some (r.takeWhile (fun c => !isSpace c))

/-- The result `n, err` of `fmt.Sscanf(s, "%d%s", &size, &unit)` with the values stored. -/
structure Scanned where
  n : Nat
  errNil : Bool
  size : Int
  unit : List Char
deriving DecidableEq, Repr

/-- The call `fmt.Sscanf(s, "%d%s", &size, &unit)`. -/
def Sscanf (s : List Char) : Scanned :=
  match scanInt s with
  | none => ⟨0, false, 0, []⟩
  | some (size, rest) =>
    match scanWord rest with
    | none => ⟨1, false, size, []⟩
    | some unit => ⟨2, true, size, unit⟩

deriving instance DecidableEq for Except

/-- The errors of `ParseSize`. -/
inductive SizeError
  | unknownUnit (unit : List Char)
  | invalidFormat
deriving DecidableEq, Repr

/-- ParseSize parses a string like "4MB", "256KB", or "1048576" into bytes. The products
are those of the type `int`, 64 bits wide. -/
def ParseSize (s : String) : Except SizeError Int :=
  let r := Sscanf s.data
  if r.n = 1 ∧ r.errNil = true then .ok r.size
  else if r.n = 2 ∧ r.errNil = true then
    let unit := r.unit.map Char.toUpper
    if unit = "KB".data then .ok (wrap64 (r.size * 1024))
    else if unit = "MB".data then .ok (wrap64 (wrap64 (r.size * 1024) * 1024))
    else if unit = "B".data then .ok r.size
    else .error (.unknownUnit r.unit)
  else .error .invalidFormat

/-! ## The trust put in the cache -/

/-- The trust the decision of a worker puts in the cache: wherever the entry of a relative
path has the size and the fingerprint of the source file and the destination is a regular
file, the destination holds the bytes of the source. -/
def Trust (fp : List Nat → Nat) (src : FS) (cache : GlobalCache) (dst : FS) : Prop :=
  ∀ relPath file entry d, mget src relPath = some file →
    IsUpToDate cache relPath = some entry →
    entry.Size = file.content.length → entry.Hash = fp file.content →
    mget dst relPath = some d → d.IsRegular = true → d.content = file.content

/-! ## core/cache.go: SaveCache and load

The two functions go through the package `encoding/json` of the Go library, which is not
part of the repository. It is modelled here after its documentation and after the
documentation of `unicode/utf8`: a string is written as a JSON string "coerced to valid
UTF-8, replacing invalid bytes with the Unicode replacement rune", the keys of a map are
sorted, a member read for a key that the map already holds replaces the value, and the
numbers of the fields of type `int64` and `uint64` are written and read in exact decimal.
The text of the file is kept as the members of its object, each with the key and the three
numbers a reader of the text gets. -/

/-- A Go string: a sequence of bytes. -/
abbrev GoString := List Nat

/-- The field `data` of `GlobalCache` with the keys as Go strings. -/
abbrev CacheData := List (GoString × CacheEntry)

/-- Lookup `m[k]` in a map keyed by Go strings. -/
def bget : CacheData → GoString → Option CacheEntry
  | [], _ => none
  | (k', v) :: m, k => if k' = k then some v else bget m k

/-- The statement `delete(m, k)` in a map keyed by Go strings. -/
def bdel : CacheData → GoString → CacheData
  | [], _ => []
  | (k', v) :: m, k => if k' = k then bdel m k else (k', v) :: bdel m k

/-- The statement `m[k] = v` in a map keyed by Go strings. -/
def bset (m : CacheData) (k : GoString) (v : CacheEntry) : CacheData :=
  (k, v) :: bdel m k

/-- A continuation byte, `locb <= b && b <= hicb` of `unicode/utf8`. -/
def isCont (b : Nat) : Bool := 0x80 ≤ b && b ≤ 0xBF

/-- The size `utf8.DecodeRune` returns with a rune at the head of the bytes; `none` stands
for the result `(RuneError, 1)` at a byte that starts no valid encoding. The ranges are
those of the tables `first` and `acceptRanges`. -/
def DecodeRuneSize : List Nat → Option Nat
  | [] => none
  | b0 :: rest =>
    if b0 < 0x80 then some 1
    else if 0xC2 ≤ b0 && b0 ≤ 0xDF then
      match rest with
      | b1 :: _ => if isCont b1 then some 2 else none
      | [] => none
    else if 0xE0 ≤ b0 && b0 ≤ 0xEF then
      match rest with
      | b1 :: b2 :: _ =>
        if (if b0 = 0xE0 then 0xA0 else 0x80) ≤ b1 && b1 ≤ (if b0 = 0xED then 0x9F else 0xBF)
            && isCont b2 then some 3 else none
      | _ => none
    else if 0xF0 ≤ b0 && b0 ≤ 0xF4 then
      match rest with
      | b1 :: b2 :: b3 :: _ =>
        if (if b0 = 0xF0 then 0x90 else 0x80) ≤ b1 && b1 ≤ (if b0 = 0xF4 then 0x8F else 0xBF)
            && isCont b2 && isCont b3 then some 4 else none
      | _ => none
    else none

/-- The string a reader gets back from the JSON string `appendString` of `encoding/json`
writes: the bytes of every valid encoding as they are, and the three bytes of U+FFFD for
every other byte. The first argument counts the bytes left of the encoding at hand. -/
def coerceUTF8 : Nat → List Nat → List Nat
  | _, [] => []
  | skip + 1, b :: rest => b :: coerceUTF8 skip rest
  | 0, b :: rest =>
    match DecodeRuneSize (b :: rest) with
    | none => 0xEF :: 0xBF :: 0xBD :: coerceUTF8 0 rest
    | some size => b :: coerceUTF8 (size - 1) rest

/-- The function `utf8.Valid`: the bytes are valid encodings one after the other. The first
argument counts the bytes left of the encoding at hand. -/
def validUTF8 : Nat → List Nat → Bool
  | _, [] => true
  | skip + 1, _ :: rest => validUTF8 skip rest
  | 0, b :: rest =>
    match DecodeRuneSize (b :: rest) with
    | none => false
    | some size => validUTF8 (size - 1) rest

/-- The order `strings.Compare(a, b) <= 0` of the keys. -/
def lexLe : List Nat → List Nat → Bool
  | [], _ => true
  | _ :: _, [] => false
  | a :: as, b :: bs => a < b || (a = b && lexLe as bs)

/-- The content of a cache file: the members of the JSON object in their order. -/
abbrev Document := List (GoString × CacheEntry)

/-- The keys of a map, each once. -/
def keysOf (m : CacheData) : List GoString :=
  (m.map Prod.fst).dedup

/-- The call `json.Marshal(c.data)`: one member per key, the keys sorted, each key written
as a JSON string. -/
def Marshal (m : CacheData) : Document :=
  ((keysOf m).insertionSort (fun a b => lexLe a b = true)).filterMap
    (fun k => (bget m k).map (fun e => (coerceUTF8 0 k, e)))

/-- The call `json.NewDecoder(f).Decode(&c.data)`: every member is stored in the map. -/
def Decode (doc : Document) (data : CacheData) : CacheData :=
  doc.foldl (fun d kv => bset d kv.1 kv.2) data

/-- SaveCache writes the current cache data to disk in minified JSON format: the content
of the file when it can be created and written. -/
def SaveCache (data : CacheData) : Document :=
  Marshal data

/-- NewGlobalCache loads or creates a cache for the given path; `none` is a file that
cannot be opened. -/
def NewGlobalCache (file : Option Document) : CacheData :=
  match file with
  | none => []
  | some doc => Decode doc []

/-! ## Inputs used in the examples -/

/-- A fingerprint without collisions for the examples: the bytes paired one after the
other. -/
def pairBytes : List Nat → Nat
  | [] => 0
  | b :: bs => Nat.pair b (pairBytes bs) + 1

/-- Answers on which everything succeeds but `io.CopyBuffer`, which fails after `n` bytes. -/
def copyFailsAfter (n : Nat) (now : Int) : Answers :=
  ⟨true, true, true, true, fun _ => .opened, fun _ => .opened, some n, fun _ => true,
    true, true, true, now, false⟩

/-- The source tree `a.txt` of three bytes. -/
def threeByteSrc : FS := [("a.txt", ⟨[1, 2, 3], true⟩)]

/-- The cache holding the size and the fingerprint of `a.txt` of `threeByteSrc`. -/
def threeByteCache : GlobalCache := [("a.txt", ⟨3, pairBytes [1, 2, 3], 1000⟩)]

/-- A toy fingerprint for the examples: the sum of the bytes. -/
def sumBytes (bytes : List Nat) : Nat := bytes.sum

/-- Answers of an operating system on which every call succeeds at time `now`. -/
def allOk (now : Int) : Answers :=
  ⟨true, true, true, true, fun _ => .opened, fun _ => .opened, none, fun _ => true,
    true, true, true, now, false⟩

/-- The bytes of "hello". -/
def helloBytes : List Nat := [104, 101, 108, 108, 111]

/-- The bytes of "world". -/
def worldBytes : List Nat := [119, 111, 114, 108, 100]

/-- The source tree `a.txt: "hello", dir/b.txt: "world"`. -/
def exampleSrc : FS := [("a.txt", ⟨helloBytes, true⟩), ("dir/b.txt", ⟨worldBytes, true⟩)]

/-- The cache after a run over `exampleSrc` at time 1000. -/
def exampleCache : GlobalCache :=
  [("a.txt", ⟨5, 532, 1000⟩), ("dir/b.txt", ⟨5, 552, 1000⟩)]

/-- Attempts of `os.Open` that fail twice with `EINTR` and then succeed. -/
def flakyOpen (j : Nat) : OpenResult :=
  if j < 2 then .failed (.pathError .EINTR) else .opened

/-- Answers on which everything succeeds but the creation of the directory. -/
def mkdirFails (now : Int) : Answers :=
  ⟨true, true, false, true, fun _ => .opened, fun _ => .opened, none, fun _ => true,
    true, true, true, now, false⟩

/-- The file `relPath` is settled: the cache holds the size and the fingerprint of its
source and the destination is a regular file. -/
def Settled (fp : List Nat → Nat) (src : FS) (cache : GlobalCache) (dst : FS)
    (relPath : String) : Prop :=
  ∃ file entry d, mget src relPath = some file ∧ IsUpToDate cache relPath = some entry ∧
    entry.Size = file.content.length ∧ entry.Hash = fp file.content ∧
    mget dst relPath = some d ∧ d.IsRegular = true

/-- A stand-in for the digest in the examples; the facts shown with it do not depend on the
digest. -/
def toySum (s : List Char) (i : Fin 32) : Nat := s.length * 7 + i.val * 31

/-- The working directory of the examples. -/
def exampleWd : Option (List Char) := some "/home/u".data

/-! # Properties -/

/-! ## Maps -/

theorem mget_mdel {β : Type} (m : List (String × β)) (k k' : String) :
    mget (mdel m k) k' = if k = k' then none else mget m k' := by
  induction m with
  | nil => simp [mdel, mget]
  | cons p m ih =>
    obtain ⟨a, v⟩ := p
    by_cases h : a = k
    · subst h
      by_cases h' : a = k'
      · subst h'
        simpa [mdel] using ih
      · simp [mdel, mget, ih, h']
    · by_cases h' : a = k'
      · subst h'
        simp [mdel, mget, h, Ne.symm h]
      · simp [mdel, mget, h, h', ih]

theorem mget_mset {β : Type} (m : List (String × β)) (k k' : String) (v : β) :
    mget (mset m k v) k' = if k = k' then some v else mget m k' := by
  by_cases h : k = k'
  · simp [mset, mget, h]
  · simp [mset, mget, h, mget_mdel]

theorem IsUpToDate_Update (c : GlobalCache) (k k' : String) (size : Int) (hash : Nat)
    (modTime : Int) :
    IsUpToDate (Update c k size hash modTime) k' =
      if k = k' then some ⟨size, hash, modTime⟩ else IsUpToDate c k' := by
  simp [IsUpToDate, Update, mget_mset]

theorem IsUpToDate_Remove (c : GlobalCache) (k k' : String) :
    IsUpToDate (Remove c k) k' = if k = k' then none else IsUpToDate c k' := by
  simp [IsUpToDate, Remove, mget_mdel]

/-! ## The decision of the worker -/

/-- The outcome of a file whose source is stat'ed is decided by `shouldCopy`. -/
theorem processFile_outcome (fp : List Nat → Nat) (cfg : Config) (src : FS) (relPath : String)
    (io : Answers) (st : State) (srcInfo : FileInfo) (hs : Stat src relPath = some srcInfo) :
    ((processFile fp cfg src relPath io st).2 = .skipped ↔
        (checkFile fp cfg src relPath srcInfo io st.cache st.dst).1 = false) ∧
    ((processFile fp cfg src relPath io st).2 = .skipped ∨
      (processFile fp cfg src relPath io st).2 = .copied ∨
      ∃ f, (processFile fp cfg src relPath io st).2 = .fatal f) := by
  unfold processFile
  simp only [hs]
  cases hc : (checkFile fp cfg src relPath srcInfo io st.cache st.dst).1
  · simp
  · simp only [if_true]
    rcases hcp : copyFile fp cfg src relPath srcInfo io
        (checkFile fp cfg src relPath srcInfo io st.cache st.dst).2 st.dst with ⟨d, c, _ | f⟩
    · simp
    · simp

/-- The normal-mode check. -/
theorem checkFile_normal (fp : List Nat → Nat) (cfg : Config) (src : FS) (relPath : String)
    (srcInfo : FileInfo) (io : Answers) (cache : GlobalCache) (dst : FS)
    (hn : cfg.noCache = false) (hv : cfg.validate = false) :
    ((checkFile fp cfg src relPath srcInfo io cache dst).1 = false ↔
      ∃ entry, IsUpToDate cache relPath = some entry ∧ entry.Size = srcInfo.Size ∧
        FileHash fp io.srcHashOk src relPath = some entry.Hash ∧
        ∃ dstInfo, Stat dst relPath = some dstInfo ∧ dstInfo.IsRegular = true) ∧
    (checkFile fp cfg src relPath srcInfo io cache dst).2 = cache := by
  unfold checkFile
  simp only [hn, hv, Bool.not_false, Bool.and_self, if_true]
  cases h1 : IsUpToDate cache relPath with
  | none => simp
  | some entry =>
    by_cases h2 : entry.Size = srcInfo.Size
    · cases h3 : FileHash fp io.srcHashOk src relPath with
      | none => simp [h2]
      | some hash =>
        by_cases h4 : entry.Hash = hash
        · cases h5 : Stat dst relPath with
          | none => simp [h2, h4]
          | some dstInfo =>
            cases h6 : dstInfo.IsRegular <;> simp [h2, h4, h6]
        · simp [h2, h4, Ne.symm h4]
    · simp [h2]

/-- The validate-mode check. -/
theorem checkFile_validate (fp : List Nat → Nat) (cfg : Config) (src : FS) (relPath : String)
    (srcInfo : FileInfo) (io : Answers) (cache : GlobalCache) (dst : FS)
    (hv : cfg.validate = true) :
    (checkFile fp cfg src relPath srcInfo io cache dst).1 = false ↔
      ∃ dstInfo, Stat dst relPath = some dstInfo ∧ dstInfo.IsRegular = true ∧
        srcInfo.Size = dstInfo.Size ∧
        ∃ h, FileHash fp io.srcHashOk src relPath = some h ∧
          FileHash fp io.dstHashOk dst relPath = some h := by
  unfold checkFile
  simp only [hv, Bool.not_true, Bool.and_false, if_true, Bool.false_eq_true, if_false]
  cases h5 : Stat dst relPath with
  | none => simp
  | some dstInfo =>
    cases h6 : dstInfo.IsRegular
    · simp [h6]
    · by_cases h2 : srcInfo.Size = dstInfo.Size
      · cases h3 : FileHash fp io.srcHashOk src relPath with
        | none => simp [h2]
        | some a =>
          cases h4 : FileHash fp io.dstHashOk dst relPath with
          | none => simp [h2]
          | some b =>
            by_cases h7 : a = b
            · simp [h2, h6, h7]
            · simp [h2, h6, h7, Ne.symm h7]
      · simp [h2]

/-- The check leaves the cache alone whenever it decides to copy. -/
theorem checkFile_copy_cache (fp : List Nat → Nat) (cfg : Config) (src : FS) (relPath : String)
    (srcInfo : FileInfo) (io : Answers) (cache : GlobalCache) (dst : FS)
    (h : (checkFile fp cfg src relPath srcInfo io cache dst).1 = true) :
    (checkFile fp cfg src relPath srcInfo io cache dst).2 = cache := by
  revert h
  unfold checkFile
  repeat' split
  all_goals simp

/-- C1: in normal mode a file whose source is stat'ed is skipped exactly when the cache has
an entry for it with the size of the source, the fingerprint of the source is computed and
is the entry's hash, and the destination is a regular file; otherwise the copy branch is
taken, in particular when the fingerprint cannot be computed or differs from the entry's
hash although the size is the same. -/
theorem C1_normal_mode_skip_iff (fp : List Nat → Nat) (cfg : Config) (src : FS)
    (relPath : String) (io : Answers) (st : State) (srcInfo : FileInfo)
    (hn : cfg.noCache = false) (hv : cfg.validate = false)
    (hs : Stat src relPath = some srcInfo) :
    ((processFile fp cfg src relPath io st).2 = .skipped ↔
      ∃ entry, IsUpToDate st.cache relPath = some entry ∧ entry.Size = srcInfo.Size ∧
        FileHash fp io.srcHashOk src relPath = some entry.Hash ∧
        ∃ dstInfo, Stat st.dst relPath = some dstInfo ∧ dstInfo.IsRegular = true) ∧
    ((processFile fp cfg src relPath io st).2 ≠ .skipped →
      (checkFile fp cfg src relPath srcInfo io st.cache st.dst).1 = true ∧
      ((processFile fp cfg src relPath io st).2 = .copied ∨
        ∃ f, (processFile fp cfg src relPath io st).2 = .fatal f)) ∧
    (FileHash fp io.srcHashOk src relPath = none →
      (processFile fp cfg src relPath io st).2 ≠ .skipped) ∧
    (∀ entry, IsUpToDate st.cache relPath = some entry → entry.Size = srcInfo.Size →
      FileHash fp io.srcHashOk src relPath ≠ some entry.Hash →
      (processFile fp cfg src relPath io st).2 ≠ .skipped) := by
  have ho := processFile_outcome fp cfg src relPath io st srcInfo hs
  have hc := (checkFile_normal fp cfg src relPath srcInfo io st.cache st.dst hn hv).1
  have hiff := ho.1.trans hc
  refine ⟨hiff, ?_, ?_, ?_⟩
  · intro hne
    refine ⟨?_, ?_⟩
    · cases hb : (checkFile fp cfg src relPath srcInfo io st.cache st.dst).1
      · exact absurd (ho.1.mpr hb) hne
      · rfl
    · rcases ho.2 with h | h
      · exact absurd h hne
      · exact h
  · intro hnone hsk
    obtain ⟨entry, _, _, hh, _⟩ := hiff.mp hsk
    rw [hnone] at hh
    cases hh
  · intro entry he _ hh hsk
    obtain ⟨entry', he', _, hh', _⟩ := hiff.mp hsk
    rw [he] at he'
    cases he'
    exact hh hh'

/-- C1 at `a.txt` of the example tree, cached and present at the destination: skipped. -/
theorem C1_normal_mode_skip_iff_witness :
    (processFile sumBytes ⟨false, false, 10⟩ exampleSrc "a.txt" (allOk 2000)
      ⟨exampleCache, exampleSrc, 0, []⟩).2 = .skipped :=
  (C1_normal_mode_skip_iff sumBytes ⟨false, false, 10⟩ exampleSrc "a.txt" (allOk 2000)
    ⟨exampleCache, exampleSrc, 0, []⟩ ⟨5, true⟩ rfl rfl (by decide)).1.mpr
    ⟨⟨5, 532, 1000⟩, by decide, by decide, by decide, ⟨5, true⟩, by decide, rfl⟩

/-! ## The copy branch -/

/-- A copy that goes through has transferred every byte, leaves a regular file with the
bytes of the source at the destination, and writes the cache unless it is disabled. -/
theorem copyFile_done (fp : List Nat → Nat) (cfg : Config) (src : FS) (relPath : String)
    (srcInfo : FileInfo) (io : Answers) (cache : GlobalCache) (dst : FS)
    (h : (copyFile fp cfg src relPath srcInfo io cache dst).2.2 = none) :
    (copyFile fp cfg src relPath srcInfo io cache dst).1 =
        mset (mdel dst relPath) relPath
          ⟨(match mget src relPath with
            | some f => f.content
            | none => []), true⟩ ∧
    (copyFile fp cfg src relPath srcInfo io cache dst).2.1 =
        (if cfg.noCache then cache
         else Update cache relPath srcInfo.Size
            ((FileHash fp io.srcHashAfterOk src relPath).getD 0) io.now) := by
  revert h
  unfold copyFile
  repeat' split
  all_goals simp_all [copiedContent]

/-- A copy that meets a fatal condition leaves the cache as it was. -/
theorem copyFile_fatal_cache (fp : List Nat → Nat) (cfg : Config) (src : FS)
    (relPath : String) (srcInfo : FileInfo) (io : Answers) (cache : GlobalCache) (dst : FS)
    (f : FatalAt) (h : (copyFile fp cfg src relPath srcInfo io cache dst).2.2 = some f) :
    (copyFile fp cfg src relPath srcInfo io cache dst).2.1 = cache := by
  revert h
  unfold copyFile
  repeat' split
  all_goals simp

/-- With the cache disabled the copy branch never writes the cache. -/
theorem copyFile_noCache (fp : List Nat → Nat) (cfg : Config) (src : FS)
    (relPath : String) (srcInfo : FileInfo) (io : Answers) (cache : GlobalCache) (dst : FS)
    (h : cfg.noCache = true) :
    (copyFile fp cfg src relPath srcInfo io cache dst).2.1 = cache := by
  unfold copyFile
  repeat' split
  all_goals simp_all

/-- With the cache disabled the check never writes the cache. -/
theorem checkFile_noCache (fp : List Nat → Nat) (cfg : Config) (src : FS)
    (relPath : String) (srcInfo : FileInfo) (io : Answers) (cache : GlobalCache) (dst : FS)
    (h : cfg.noCache = true) :
    (checkFile fp cfg src relPath srcInfo io cache dst).2 = cache := by
  unfold checkFile
  repeat' split
  all_goals simp_all

/-- The state after a file that was copied. -/
theorem processFile_copied (fp : List Nat → Nat) (cfg : Config) (src : FS) (relPath : String)
    (io : Answers) (st : State) (file : File) (hs : mget src relPath = some file)
    (hc : (processFile fp cfg src relPath io st).2 = .copied) :
    (processFile fp cfg src relPath io st).1.dst =
        mset (mdel st.dst relPath) relPath ⟨file.content, true⟩ ∧
    (processFile fp cfg src relPath io st).1.cache =
        (if cfg.noCache then st.cache
         else Update st.cache relPath file.content.length
            ((FileHash fp io.srcHashAfterOk src relPath).getD 0) io.now) := by
  have hstat : Stat src relPath = some ⟨(file.content.length : Int), file.IsRegular⟩ := by
    simp [Stat, hs]
  revert hc
  unfold processFile
  simp only [hstat]
  cases hb : (checkFile fp cfg src relPath ⟨(file.content.length : Int), file.IsRegular⟩ io
      st.cache st.dst).1
  · simp
  · have hcache := checkFile_copy_cache fp cfg src relPath _ io st.cache st.dst hb
    simp only [if_true, hcache]
    rcases hcp : copyFile fp cfg src relPath ⟨(file.content.length : Int), file.IsRegular⟩ io
        st.cache st.dst with ⟨d, c, _ | f⟩
    · intro _
      have hd := copyFile_done fp cfg src relPath _ io st.cache st.dst (by rw [hcp])
      rw [hcp] at hd
      simpa [hs] using hd
    · simp

/-- With the cache disabled a worker never writes the cache. -/
theorem processFile_noCache (fp : List Nat → Nat) (cfg : Config) (src : FS) (relPath : String)
    (io : Answers) (st : State) (h : cfg.noCache = true) :
    (processFile fp cfg src relPath io st).1.cache = st.cache := by
  unfold processFile
  cases hs : Stat src relPath with
  | none => rfl
  | some srcInfo =>
    have h1 := checkFile_noCache fp cfg src relPath srcInfo io st.cache st.dst h
    have h2 := copyFile_noCache fp cfg src relPath srcInfo io st.cache st.dst h
    simp only [h1]
    split
    · rcases hcp : copyFile fp cfg src relPath srcInfo io st.cache st.dst with ⟨d, c, _ | f⟩
      · rw [hcp] at h2
        simpa using h2
      · rw [hcp] at h2
        simpa using h2
    · rfl

/-! ## The run -/

/-- With at least one worker and a buffer of positive size, a run is the worker loop over
the files in their order of arrival and does not panic. -/
theorem runCopyWorkers_of_pos (fp : List Nat → Nat) (cfg : Config) (src : FS)
    (workers bufSize : Int) (jobs : List (String × Answers)) (cache : GlobalCache) (dst : FS)
    (hw : 0 < workers) (hb : 0 < bufSize) :
    runCopyWorkers fp cfg src workers bufSize jobs cache dst =
      ⟨(runWorker fp cfg src jobs ⟨cache, dst, 0, []⟩).1,
        (runWorker fp cfg src jobs ⟨cache, dst, 0, []⟩).2, false⟩ := by
  unfold runCopyWorkers
  rw [if_neg (by omega), if_neg (by omega), if_neg (by omega)]

/-! ## C2: the no-cache flag -/

/-- C2, counterexample: with the flags no-cache and validate both set, `a.txt` of the example
tree, whose destination has the same bytes, is stat'ed and skipped. -/
theorem C2_noCache_with_validate_skips :
    Stat exampleSrc "a.txt" = some ⟨5, true⟩ ∧
    (processFile sumBytes ⟨true, true, 10⟩ exampleSrc "a.txt" (allOk 2000)
      ⟨[], exampleSrc, 0, []⟩).2 = .skipped := by
  decide

/-- C2, amended: with the no-cache flag set and the validate flag not set, a file whose
source is stat'ed is never skipped, whatever the cache and the destination hold; with both
flags set the validate check decides, and in either case the cache is not written. -/
theorem C2_noCache_decision (fp : List Nat → Nat) (cfg : Config) (src : FS)
    (relPath : String) (io : Answers) (st : State) (srcInfo : FileInfo)
    (hn : cfg.noCache = true) (hs : Stat src relPath = some srcInfo) :
    (cfg.validate = false →
      (processFile fp cfg src relPath io st).2 = .copied ∨
        ∃ f, (processFile fp cfg src relPath io st).2 = .fatal f) ∧
    (cfg.validate = true →
      ((processFile fp cfg src relPath io st).2 = .skipped ↔
        ∃ dstInfo, Stat st.dst relPath = some dstInfo ∧ dstInfo.IsRegular = true ∧
          srcInfo.Size = dstInfo.Size ∧
          ∃ h, FileHash fp io.srcHashOk src relPath = some h ∧
            FileHash fp io.dstHashOk st.dst relPath = some h)) ∧
    (processFile fp cfg src relPath io st).1.cache = st.cache := by
  have ho := processFile_outcome fp cfg src relPath io st srcInfo hs
  refine ⟨?_, ?_, processFile_noCache fp cfg src relPath io st hn⟩
  · intro hv
    have hb : (checkFile fp cfg src relPath srcInfo io st.cache st.dst).1 = true := by
      simp [checkFile, hn, hv]
    rcases ho.2 with h | h
    · rw [ho.1.mp h] at hb
      cases hb
    · exact h
  · intro hv
    exact ho.1.trans (checkFile_validate fp cfg src relPath srcInfo io st.cache st.dst hv)

/-- C2 at `a.txt` of the example tree with a full cache and destination: not skipped. -/
theorem C2_noCache_decision_witness :
    (processFile sumBytes ⟨true, false, 10⟩ exampleSrc "a.txt" (allOk 2000)
        ⟨exampleCache, exampleSrc, 0, []⟩).2 = .copied ∨
      ∃ f, (processFile sumBytes ⟨true, false, 10⟩ exampleSrc "a.txt" (allOk 2000)
        ⟨exampleCache, exampleSrc, 0, []⟩).2 = .fatal f :=
  (C2_noCache_decision sumBytes ⟨true, false, 10⟩ exampleSrc "a.txt" (allOk 2000)
    ⟨exampleCache, exampleSrc, 0, []⟩ ⟨5, true⟩ rfl (by decide)).1 rfl

/-! ## C3: validate mode -/

/-- C3: in validate mode a file whose source is stat'ed is skipped exactly when the
destination is a regular file of the size of the source and both fingerprints are computed
and equal; otherwise the copy branch is taken. The cache has no part in the decision: two
states with the same destination give the same outcome, and the file is never skipped when
the two fingerprints differ. -/
theorem C3_validate_mode_skip_iff (fp : List Nat → Nat) (cfg : Config) (src : FS)
    (relPath : String) (io : Answers) (st : State) (srcInfo : FileInfo)
    (hv : cfg.validate = true) (hs : Stat src relPath = some srcInfo) :
    ((processFile fp cfg src relPath io st).2 = .skipped ↔
      ∃ dstInfo, Stat st.dst relPath = some dstInfo ∧ dstInfo.IsRegular = true ∧
        srcInfo.Size = dstInfo.Size ∧
        ∃ h, FileHash fp io.srcHashOk src relPath = some h ∧
          FileHash fp io.dstHashOk st.dst relPath = some h) ∧
    ((processFile fp cfg src relPath io st).2 ≠ .skipped →
      (checkFile fp cfg src relPath srcInfo io st.cache st.dst).1 = true ∧
      ((processFile fp cfg src relPath io st).2 = .copied ∨
        ∃ f, (processFile fp cfg src relPath io st).2 = .fatal f)) ∧
    (FileHash fp io.srcHashOk src relPath ≠ FileHash fp io.dstHashOk st.dst relPath →
      (processFile fp cfg src relPath io st).2 ≠ .skipped) ∧
    (∀ cache : GlobalCache,
      ((processFile fp cfg src relPath io
          ⟨cache, st.dst, st.copiedBytes, st.progressCalls⟩).2 = .skipped ↔
        (processFile fp cfg src relPath io st).2 = .skipped)) := by
  have key : ∀ c : GlobalCache,
      ((processFile fp cfg src relPath io
          ⟨c, st.dst, st.copiedBytes, st.progressCalls⟩).2 = .skipped ↔
        ∃ dstInfo, Stat st.dst relPath = some dstInfo ∧ dstInfo.IsRegular = true ∧
          srcInfo.Size = dstInfo.Size ∧
          ∃ h, FileHash fp io.srcHashOk src relPath = some h ∧
            FileHash fp io.dstHashOk st.dst relPath = some h) := fun c =>
    (processFile_outcome fp cfg src relPath io ⟨c, st.dst, st.copiedBytes, st.progressCalls⟩
      srcInfo hs).1.trans (checkFile_validate fp cfg src relPath srcInfo io c st.dst hv)
  have ho := processFile_outcome fp cfg src relPath io st srcInfo hs
  have hiff := key st.cache
  refine ⟨hiff, ?_, ?_, fun c => (key c).trans hiff.symm⟩
  · intro hne
    refine ⟨?_, ?_⟩
    · cases hb : (checkFile fp cfg src relPath srcInfo io st.cache st.dst).1
      · exact absurd (ho.1.mpr hb) hne
      · rfl
    · rcases ho.2 with h | h
      · exact absurd h hne
      · exact h
  · intro hne hsk
    obtain ⟨_, _, _, _, h, h1, h2⟩ := hiff.mp hsk
    exact hne (h1.trans h2.symm)

/-- C3 at `a.txt` of the example tree with an empty destination: not skipped. -/
theorem C3_validate_mode_skip_iff_witness :
    (processFile sumBytes ⟨false, true, 10⟩ exampleSrc "a.txt" (allOk 2000)
        ⟨exampleCache, [], 0, []⟩).2 ≠ .skipped :=
  (C3_validate_mode_skip_iff sumBytes ⟨false, true, 10⟩ exampleSrc "a.txt" (allOk 2000)
    ⟨exampleCache, [], 0, []⟩ ⟨5, true⟩ rfl (by decide)).2.2.1 (by decide)

/-! ## C4: the cache after a copy -/

/-- C4, counterexample: a run with the cache disabled over the two 5-byte files of the
example tree, from an empty cache and destination, copies both and ends with an empty
cache. -/
theorem C4_noCache_run_leaves_cache_empty :
    (runCopyWorkers sumBytes ⟨true, false, 10⟩ exampleSrc 1 32768
        [("a.txt", allOk 1000), ("dir/b.txt", allOk 1000)] [] []).outcomes =
      [.copied, .copied] ∧
    (runCopyWorkers sumBytes ⟨true, false, 10⟩ exampleSrc 1 32768
        [("a.txt", allOk 1000), ("dir/b.txt", allOk 1000)] [] []).state.cache = [] := by
  decide

/-- C4, amended: when a file is copied without a fatal condition the destination holds a
regular file with the bytes of the source; with the cache enabled (normal or validate mode)
and the fingerprint of the source computed after the copy, the cache then holds for the
relative path the size of the source, that fingerprint and the time of the operation; with
the cache disabled the cache is left as it was. -/
theorem C4_cache_after_copy (fp : List Nat → Nat) (cfg : Config) (src : FS)
    (relPath : String) (io : Answers) (st : State) (file : File)
    (hs : mget src relPath = some file)
    (hc : (processFile fp cfg src relPath io st).2 = .copied) :
    mget (processFile fp cfg src relPath io st).1.dst relPath = some ⟨file.content, true⟩ ∧
    (cfg.noCache = false → io.srcHashAfterOk = true →
      IsUpToDate (processFile fp cfg src relPath io st).1.cache relPath =
        some ⟨file.content.length, fp file.content, io.now⟩) ∧
    (cfg.noCache = true → (processFile fp cfg src relPath io st).1.cache = st.cache) := by
  obtain ⟨hd, hcache⟩ := processFile_copied fp cfg src relPath io st file hs hc
  refine ⟨?_, ?_, ?_⟩
  · rw [hd, mget_mset]
    simp
  · intro hn hok
    rw [hcache]
    simp [hn, IsUpToDate_Update, FileHash, hs, hok]
  · intro hn
    rw [hcache]
    simp [hn]

/-- C4 at `a.txt` of the example tree, cache enabled, empty cache and destination: the
entry has size 5, the fingerprint of "hello" and the time 1000. -/
theorem C4_cache_after_copy_witness :
    IsUpToDate (processFile sumBytes ⟨false, false, 10⟩ exampleSrc "a.txt" (allOk 1000)
        ⟨[], [], 0, []⟩).1.cache "a.txt" = some ⟨5, sumBytes helloBytes, 1000⟩ :=
  (C4_cache_after_copy sumBytes ⟨false, false, 10⟩ exampleSrc "a.txt" (allOk 1000)
    ⟨[], [], 0, []⟩ ⟨helloBytes, true⟩ (by decide) (by decide)).2.1 rfl rfl

/-! ## C5: a second run skips everything -/

/-- The check writes the cache at the relative path of the file only. -/
theorem checkFile_frame (fp : List Nat → Nat) (cfg : Config) (src : FS) (relPath : String)
    (srcInfo : FileInfo) (io : Answers) (cache : GlobalCache) (dst : FS) (g : String)
    (hg : relPath ≠ g) :
    IsUpToDate (checkFile fp cfg src relPath srcInfo io cache dst).2 g = IsUpToDate cache g := by
  unfold checkFile
  repeat' split
  all_goals simp [IsUpToDate_Update, hg]

/-- The copy branch writes the destination and the cache at the relative path only. -/
theorem copyFile_frame (fp : List Nat → Nat) (cfg : Config) (src : FS) (relPath : String)
    (srcInfo : FileInfo) (io : Answers) (cache : GlobalCache) (dst : FS) (g : String)
    (hg : relPath ≠ g) :
    mget (copyFile fp cfg src relPath srcInfo io cache dst).1 g = mget dst g ∧
    IsUpToDate (copyFile fp cfg src relPath srcInfo io cache dst).2.1 g =
      IsUpToDate cache g := by
  unfold copyFile
  repeat' split
  all_goals simp [IsUpToDate_Update, mget_mset, mget_mdel, hg]

/-- Processing a file touches the destination and the cache at its relative path only. -/
theorem processFile_frame (fp : List Nat → Nat) (cfg : Config) (src : FS) (relPath : String)
    (io : Answers) (st : State) (g : String) (hg : relPath ≠ g) :
    mget (processFile fp cfg src relPath io st).1.dst g = mget st.dst g ∧
    IsUpToDate (processFile fp cfg src relPath io st).1.cache g = IsUpToDate st.cache g := by
  unfold processFile
  cases hs : Stat src relPath with
  | none => exact ⟨rfl, rfl⟩
  | some srcInfo =>
    have h1 := checkFile_frame fp cfg src relPath srcInfo io st.cache st.dst g hg
    simp only
    split
    · have h2 := copyFile_frame fp cfg src relPath srcInfo io
        (checkFile fp cfg src relPath srcInfo io st.cache st.dst).2 st.dst g hg
      rcases hcp : copyFile fp cfg src relPath srcInfo io
        (checkFile fp cfg src relPath srcInfo io st.cache st.dst).2 st.dst with ⟨d, c, _ | f⟩
      · rw [hcp] at h2
        exact ⟨h2.1, h2.2.trans h1⟩
      · rw [hcp] at h2
        exact ⟨h2.1, h2.2.trans h1⟩
    · exact ⟨rfl, h1⟩

/-- A skipped file leaves the destination as it was, and in normal mode the cache too. -/
theorem processFile_skipped (fp : List Nat → Nat) (cfg : Config) (src : FS) (relPath : String)
    (io : Answers) (st : State) (hc : (processFile fp cfg src relPath io st).2 = .skipped) :
    (processFile fp cfg src relPath io st).1.dst = st.dst ∧
    (cfg.noCache = false → cfg.validate = false →
      (processFile fp cfg src relPath io st).1.cache = st.cache) := by
  revert hc
  unfold processFile
  cases hs : Stat src relPath with
  | none => simp
  | some srcInfo =>
    simp only
    split
    · rcases hcp : copyFile fp cfg src relPath srcInfo io
        (checkFile fp cfg src relPath srcInfo io st.cache st.dst).2 st.dst with ⟨d, c, _ | f⟩
      · simp
      · simp
    · intro _
      refine ⟨rfl, fun hn hv => ?_⟩
      exact (checkFile_normal fp cfg src relPath srcInfo io st.cache st.dst hn hv).2

/-- In normal mode a file that is processed without a fatal condition is settled. -/
theorem processFile_settles (fp : List Nat → Nat) (cfg : Config) (src : FS)
    (relPath : String) (io : Answers) (st : State)
    (hn : cfg.noCache = false) (hv : cfg.validate = false)
    (hs : (Stat src relPath).isSome = true) (hok : io.srcHashAfterOk = true)
    (hnf : ∀ f, (processFile fp cfg src relPath io st).2 ≠ .fatal f) :
    Settled fp src (processFile fp cfg src relPath io st).1.cache
      (processFile fp cfg src relPath io st).1.dst relPath := by
  cases hm : mget src relPath with
  | none => simp [Stat, hm] at hs
  | some file =>
    have hstat : Stat src relPath = some ⟨(file.content.length : Int), file.IsRegular⟩ := by
      simp [Stat, hm]
    have ho := processFile_outcome fp cfg src relPath io st _ hstat
    rcases ho.2 with h | h | ⟨f, h⟩
    · obtain ⟨entry, he, hsz, hh, dstInfo, hd, hreg⟩ :=
        (ho.1.trans (checkFile_normal fp cfg src relPath _ io st.cache st.dst hn hv).1).mp h
      obtain ⟨hdst, hcache⟩ := processFile_skipped fp cfg src relPath io st h
      rw [hdst, hcache hn hv]
      cases hdm : mget st.dst relPath with
      | none => simp [Stat, hdm] at hd
      | some d =>
        refine ⟨file, entry, d, hm, he, hsz, ?_, hdm, ?_⟩
        · cases hio : io.srcHashOk <;> simp [FileHash, hm, hio] at hh
          exact hh.symm
        · simp [Stat, hdm] at hd
          rw [← hd] at hreg
          exact hreg
    · obtain ⟨hd, hcache⟩ := processFile_copied fp cfg src relPath io st file hm h
      refine ⟨file, ⟨file.content.length, fp file.content, io.now⟩, ⟨file.content, true⟩,
        hm, ?_, rfl, rfl, ?_, rfl⟩
      · rw [hcache]
        simp [hn, IsUpToDate_Update, FileHash, hm, hok]
      · rw [hd, mget_mset]
        simp
    · exact absurd h (hnf f)

/-- Processing a file keeps every other file settled, and keeps the file itself settled
when no fatal condition is met. -/
theorem processFile_keeps_settled (fp : List Nat → Nat) (cfg : Config) (src : FS)
    (relPath : String) (io : Answers) (st : State) (g : String)
    (hn : cfg.noCache = false) (hv : cfg.validate = false)
    (hs : (Stat src relPath).isSome = true) (hok : io.srcHashAfterOk = true)
    (hnf : ∀ f, (processFile fp cfg src relPath io st).2 ≠ .fatal f)
    (hg : Settled fp src st.cache st.dst g) :
    Settled fp src (processFile fp cfg src relPath io st).1.cache
      (processFile fp cfg src relPath io st).1.dst g := by
  by_cases h : relPath = g
  · subst h
    exact processFile_settles fp cfg src relPath io st hn hv hs hok hnf
  · obtain ⟨hd, hc⟩ := processFile_frame fp cfg src relPath io st g h
    obtain ⟨file, entry, d, h1, h2, h3, h4, h5, h6⟩ := hg
    exact ⟨file, entry, d, h1, hc.trans h2, h3, h4, hd.trans h5, h6⟩

/-- In normal mode a settled file whose fingerprint is computed is skipped, and the cache and
the destination stay as they are. -/
theorem processFile_settled_skips (fp : List Nat → Nat) (cfg : Config) (src : FS)
    (relPath : String) (io : Answers) (st : State)
    (hn : cfg.noCache = false) (hv : cfg.validate = false) (hok : io.srcHashOk = true)
    (hg : Settled fp src st.cache st.dst relPath) :
    (processFile fp cfg src relPath io st).2 = .skipped ∧
    (processFile fp cfg src relPath io st).1.cache = st.cache ∧
    (processFile fp cfg src relPath io st).1.dst = st.dst := by
  obtain ⟨file, entry, d, h1, h2, h3, h4, h5, h6⟩ := hg
  have hstat : Stat src relPath = some ⟨(file.content.length : Int), file.IsRegular⟩ := by
    simp [Stat, h1]
  have ho := processFile_outcome fp cfg src relPath io st _ hstat
  have hsk : (processFile fp cfg src relPath io st).2 = .skipped := by
    refine (ho.1.trans (checkFile_normal fp cfg src relPath _ io st.cache st.dst hn hv).1).mpr
      ⟨entry, h2, h3, ?_, ⟨(d.content.length : Int), d.IsRegular⟩, ?_, h6⟩
    · simp [FileHash, h1, hok, h4]
    · simp [Stat, h5]
  obtain ⟨hdst, hcache⟩ := processFile_skipped fp cfg src relPath io st hsk
  exact ⟨hsk, hcache hn hv, hdst⟩

/-- A worker goes on to the next file after a file that met no fatal condition. -/
theorem runWorker_cons (fp : List Nat → Nat) (cfg : Config) (src : FS) (relPath : String)
    (io : Answers) (jobs : List (String × Answers)) (st : State)
    (hnf : ∀ f, (processFile fp cfg src relPath io st).2 ≠ .fatal f) :
    runWorker fp cfg src ((relPath, io) :: jobs) st =
      ((runWorker fp cfg src jobs (processFile fp cfg src relPath io st).1).1,
        (processFile fp cfg src relPath io st).2 ::
          (runWorker fp cfg src jobs (processFile fp cfg src relPath io st).1).2) := by
  rcases hp : processFile fp cfg src relPath io st with ⟨st1, o⟩
  rw [hp] at hnf
  cases o with
  | fatal f => exact absurd rfl (hnf f)
  | statFailed => simp [runWorker, hp]
  | skipped => simp [runWorker, hp]
  | copied => simp [runWorker, hp]

/-- A worker returns after a file that met a fatal condition. -/
theorem runWorker_cons_fatal (fp : List Nat → Nat) (cfg : Config) (src : FS)
    (relPath : String) (io : Answers) (jobs : List (String × Answers)) (st : State)
    (f : FatalAt) (hf : (processFile fp cfg src relPath io st).2 = .fatal f) :
    runWorker fp cfg src ((relPath, io) :: jobs) st =
      ((processFile fp cfg src relPath io st).1, [.fatal f]) := by
  rcases hp : processFile fp cfg src relPath io st with ⟨st1, o⟩
  rw [hp] at hf
  subst hf
  simp [runWorker, hp]

/-- A normal-mode run without a fatal condition settles every file of the list. -/
theorem runWorker_settles (fp : List Nat → Nat) (cfg : Config) (src : FS)
    (hn : cfg.noCache = false) (hv : cfg.validate = false)
    (jobs : List (String × Answers)) :
    ∀ st : State,
      (∀ j ∈ jobs, (Stat src j.1).isSome = true ∧ j.2.srcHashAfterOk = true) →
      (∀ f, Outcome.fatal f ∉ (runWorker fp cfg src jobs st).2) →
      (∀ g, Settled fp src st.cache st.dst g →
        Settled fp src (runWorker fp cfg src jobs st).1.cache
          (runWorker fp cfg src jobs st).1.dst g) ∧
      (∀ j ∈ jobs, Settled fp src (runWorker fp cfg src jobs st).1.cache
          (runWorker fp cfg src jobs st).1.dst j.1) := by
  induction jobs with
  | nil =>
    intro st _ _
    exact ⟨fun g hg => hg, fun j hj => absurd hj (List.not_mem_nil j)⟩
  | cons job jobs ih =>
    obtain ⟨relPath, io⟩ := job
    intro st hjobs hrun
    have hnf : ∀ f, (processFile fp cfg src relPath io st).2 ≠ .fatal f := by
      intro f hf
      rw [runWorker_cons_fatal fp cfg src relPath io jobs st f hf] at hrun
      exact hrun f (List.mem_singleton.mpr rfl)
    rw [runWorker_cons fp cfg src relPath io jobs st hnf] at hrun ⊢
    obtain ⟨hstat, hok⟩ := hjobs (relPath, io) (List.mem_cons_self _ _)
    have ih' := ih (processFile fp cfg src relPath io st).1
      (fun j hj => hjobs j (List.mem_cons_of_mem _ hj))
      (fun f hf => hrun f (List.mem_cons_of_mem _ hf))
    refine ⟨fun g hg => ih'.1 g ?_, fun j hj => ?_⟩
    · exact processFile_keeps_settled fp cfg src relPath io st g hn hv hstat hok hnf hg
    · rcases List.mem_cons.mp hj with h | h
      · subst h
        exact ih'.1 relPath
          (processFile_settles fp cfg src relPath io st hn hv hstat hok hnf)
      · exact ih'.2 j h

/-- A normal-mode run over settled files skips every one of them and leaves the cache and
the destination as they are. -/
theorem runWorker_skips (fp : List Nat → Nat) (cfg : Config) (src : FS)
    (hn : cfg.noCache = false) (hv : cfg.validate = false)
    (jobs : List (String × Answers)) :
    ∀ st : State,
      (∀ j ∈ jobs, Settled fp src st.cache st.dst j.1 ∧ j.2.srcHashOk = true) →
      (runWorker fp cfg src jobs st).2 = jobs.map (fun _ => Outcome.skipped) ∧
      (runWorker fp cfg src jobs st).1.cache = st.cache ∧
      (runWorker fp cfg src jobs st).1.dst = st.dst := by
  induction jobs with
  | nil =>
    intro st _
    exact ⟨rfl, rfl, rfl⟩
  | cons job jobs ih =>
    obtain ⟨relPath, io⟩ := job
    intro st hjobs
    obtain ⟨hset, hok⟩ := hjobs (relPath, io) (List.mem_cons_self _ _)
    obtain ⟨hsk, hcache, hdst⟩ :=
      processFile_settled_skips fp cfg src relPath io st hn hv hok hset
    have hnf : ∀ f, (processFile fp cfg src relPath io st).2 ≠ .fatal f := by
      intro f hf
      rw [hsk] at hf
      cases hf
    rw [runWorker_cons fp cfg src relPath io jobs st hnf]
    have ih' := ih (processFile fp cfg src relPath io st).1 (fun j hj => by
      rw [hcache, hdst]
      exact hjobs j (List.mem_cons_of_mem _ hj))
    refine ⟨?_, ?_, ?_⟩
    · simp [hsk, ih'.1]
    · exact ih'.2.1.trans hcache
    · exact ih'.2.2.trans hdst

/-- Claim C5, a first run without workers: with `workers = 0` the first run over the two
files of the example returns without a fatal condition and without a panic, having
processed no file; the second run, with one worker, from the cache and the destination it
has left, copies both files. -/
theorem C5_first_run_without_workers :
    runCopyWorkers sumBytes ⟨false, false, 10⟩ exampleSrc 0 32768
        [("a.txt", allOk 1000), ("dir/b.txt", allOk 1000)] [] [] =
      ⟨⟨[], [], 0, []⟩, [], false⟩ ∧
    (runCopyWorkers sumBytes ⟨false, false, 10⟩ exampleSrc 1 32768
        [("a.txt", allOk 2000), ("dir/b.txt", allOk 2000)]
        (runCopyWorkers sumBytes ⟨false, false, 10⟩ exampleSrc 0 32768
          [("a.txt", allOk 1000), ("dir/b.txt", allOk 1000)] [] []).state.cache
        (runCopyWorkers sumBytes ⟨false, false, 10⟩ exampleSrc 0 32768
          [("a.txt", allOk 1000), ("dir/b.txt", allOk 1000)] [] []).state.dst).outcomes =
      [.copied, .copied] := by
  decide

/-- Claim C5, with at least one worker and a buffer of positive size in both runs: for
every file list, cache and destination, if a normal-mode run meets no fatal condition,
every source being stat'ed and fingerprinted, then a second normal-mode run over the same
sources, the resulting destination and the resulting cache skips every file, does not
panic, leaves the destination untouched and leaves the cache equal to what the first run
left. -/
theorem C5_second_run_skips_all (fp : List Nat → Nat) (cfg : Config) (src : FS)
    (workers1 bufSize1 workers2 bufSize2 : Int)
    (jobs1 jobs2 : List (String × Answers)) (cache : GlobalCache) (dst : FS)
    (hw1 : 0 < workers1) (hb1 : 0 < bufSize1) (hw2 : 0 < workers2) (hb2 : 0 < bufSize2)
    (hn : cfg.noCache = false) (hv : cfg.validate = false)
    (hfiles : jobs2.map Prod.fst = jobs1.map Prod.fst)
    (h1 : ∀ j ∈ jobs1, (Stat src j.1).isSome = true ∧ j.2.srcHashAfterOk = true)
    (h2 : ∀ j ∈ jobs2, j.2.srcHashOk = true)
    (hnofatal : ∀ f, Outcome.fatal f ∉
      (runCopyWorkers fp cfg src workers1 bufSize1 jobs1 cache dst).outcomes) :
    (runCopyWorkers fp cfg src workers2 bufSize2 jobs2
        (runCopyWorkers fp cfg src workers1 bufSize1 jobs1 cache dst).state.cache
        (runCopyWorkers fp cfg src workers1 bufSize1 jobs1 cache dst).state.dst).outcomes =
      jobs2.map (fun _ => Outcome.skipped) ∧
    (runCopyWorkers fp cfg src workers2 bufSize2 jobs2
        (runCopyWorkers fp cfg src workers1 bufSize1 jobs1 cache dst).state.cache
        (runCopyWorkers fp cfg src workers1 bufSize1 jobs1 cache dst).state.dst).panicked =
      false ∧
    (runCopyWorkers fp cfg src workers2 bufSize2 jobs2
        (runCopyWorkers fp cfg src workers1 bufSize1 jobs1 cache dst).state.cache
        (runCopyWorkers fp cfg src workers1 bufSize1 jobs1 cache dst).state.dst).state.cache =
      (runCopyWorkers fp cfg src workers1 bufSize1 jobs1 cache dst).state.cache ∧
    (runCopyWorkers fp cfg src workers2 bufSize2 jobs2
        (runCopyWorkers fp cfg src workers1 bufSize1 jobs1 cache dst).state.cache
        (runCopyWorkers fp cfg src workers1 bufSize1 jobs1 cache dst).state.dst).state.dst =
      (runCopyWorkers fp cfg src workers1 bufSize1 jobs1 cache dst).state.dst := by
  rw [runCopyWorkers_of_pos fp cfg src workers1 bufSize1 jobs1 cache dst hw1 hb1] at hnofatal ⊢
  simp only at hnofatal ⊢
  rw [runCopyWorkers_of_pos fp cfg src workers2 bufSize2 jobs2 _ _ hw2 hb2]
  simp only
  have hs := (runWorker_settles fp cfg src hn hv jobs1 ⟨cache, dst, 0, []⟩ h1 hnofatal).2
  have hr := runWorker_skips fp cfg src hn hv jobs2
    ⟨(runWorker fp cfg src jobs1 ⟨cache, dst, 0, []⟩).1.cache,
      (runWorker fp cfg src jobs1 ⟨cache, dst, 0, []⟩).1.dst, 0, []⟩
    (fun j hj => ⟨by
      have hmem : j.1 ∈ jobs1.map Prod.fst := by
        rw [← hfiles]
        exact List.mem_map_of_mem _ hj
      obtain ⟨j', hj', heq⟩ := List.mem_map.mp hmem
      rw [← heq]
      exact hs j' hj', h2 j hj⟩)
  exact ⟨hr.1, trivial, hr.2.1, hr.2.2⟩

/-- Claim C5 on the example tree, one worker and a buffer of 32768 bytes: after a first run
from an empty cache and destination, the second run skips both files. -/
theorem C5_second_run_skips_all_witness :
    (runCopyWorkers sumBytes ⟨false, false, 10⟩ exampleSrc 1 32768
      [("a.txt", allOk 2000), ("dir/b.txt", allOk 2000)]
      (runCopyWorkers sumBytes ⟨false, false, 10⟩ exampleSrc 1 32768
        [("a.txt", allOk 1000), ("dir/b.txt", allOk 1000)] [] []).state.cache
      (runCopyWorkers sumBytes ⟨false, false, 10⟩ exampleSrc 1 32768
        [("a.txt", allOk 1000), ("dir/b.txt", allOk 1000)] [] []).state.dst).outcomes =
      [.skipped, .skipped] :=
  (C5_second_run_skips_all sumBytes ⟨false, false, 10⟩ exampleSrc 1 32768 1 32768
    [("a.txt", allOk 1000), ("dir/b.txt", allOk 1000)]
    [("a.txt", allOk 2000), ("dir/b.txt", allOk 2000)] [] []
    (by decide) (by decide) (by decide) (by decide) rfl rfl rfl
    (by decide) (by decide)
    (fun f hf => by
      have hrun : (runCopyWorkers sumBytes ⟨false, false, 10⟩ exampleSrc 1 32768
          [("a.txt", allOk 1000), ("dir/b.txt", allOk 1000)] [] []).outcomes =
            [.copied, .copied] := by
        decide
      rw [hrun] at hf
      simp at hf)).1

/-! ## C6, C7: old cache entries -/

/-- Membership in `Keys` is having a binding. -/
theorem mem_Keys (c : GlobalCache) (k : String) :
    k ∈ Keys c ↔ ∃ e, IsUpToDate c k = some e := by
  induction c with
  | nil => simp [Keys, IsUpToDate, mget]
  | cons p c ih =>
    obtain ⟨a, v⟩ := p
    by_cases h : a = k
    · simp [Keys, IsUpToDate, mget, h]
    · simp only [Keys, IsUpToDate, mget, h, List.map_cons, List.mem_cons, if_false] at ih ⊢
      rw [← ih]
      constructor
      · rintro (h' | h')
        · exact absurd h'.symm h
        · exact h'
      · exact fun h' => Or.inr h'

/-- One iteration of the removal loop. -/
theorem IsUpToDate_removeIfOld (now maxAge : Int) (c : GlobalCache) (key k : String) :
    IsUpToDate (removeIfOld now maxAge c key) k =
      match IsUpToDate c k with
      | some e => if key = k ∧ isOld now maxAge e = true then none else some e
      | none => none := by
  unfold removeIfOld
  by_cases h : key = k
  · subst h
    rcases he : IsUpToDate c key with _ | e
    · simp [he]
    · cases ho : isOld now maxAge e
      · simp [he, ho]
      · simp [ho, IsUpToDate_Remove]
  · rcases hk : IsUpToDate c k with _ | e'
    · rcases he : IsUpToDate c key with _ | e
      · simp [hk]
      · cases ho : isOld now maxAge e
        · simp [hk, ho]
        · simp [IsUpToDate_Remove, h, hk, ho]
    · rcases he : IsUpToDate c key with _ | e
      · simp [hk, h]
      · cases ho : isOld now maxAge e
        · simp [hk, h, ho]
        · simp [IsUpToDate_Remove, h, hk, ho]

/-- The removal loop over any list of keys. -/
theorem IsUpToDate_foldl_removeIfOld (now maxAge : Int) (keys : List String) :
    ∀ (c : GlobalCache) (k : String),
      IsUpToDate (keys.foldl (removeIfOld now maxAge) c) k =
        match IsUpToDate c k with
        | some e => if k ∈ keys ∧ isOld now maxAge e = true then none else some e
        | none => none := by
  induction keys with
  | nil =>
    intro c k
    rcases he : IsUpToDate c k with _ | e <;> simp [he]
  | cons key keys ih =>
    intro c k
    rw [List.foldl_cons, ih, IsUpToDate_removeIfOld]
    rcases he : IsUpToDate c k with _ | e
    · simp
    · by_cases h1 : key = k
      · cases ho : isOld now maxAge e <;> simp [h1, ho]
      · cases ho : isOld now maxAge e <;> simp [h1, Ne.symm h1, ho]

/-- The removal of old entries removes the entries that pass the test of line 487 and no
other. -/
theorem IsUpToDate_removeOldEntries (now maxCacheAge : Int) (c : GlobalCache) (k : String) :
    IsUpToDate (removeOldEntries now maxCacheAge c) k =
      match IsUpToDate c k with
      | some e => if isOld now (maxAgeSeconds maxCacheAge) e = true then none else some e
      | none => none := by
  unfold removeOldEntries
  rw [IsUpToDate_foldl_removeIfOld]
  rcases he : IsUpToDate c k with _ | e
  · rfl
  · have hk : k ∈ Keys c := (mem_Keys c k).mpr ⟨e, he⟩
    simp [hk]

/-- An integer in the range of `int64` is its own wrapping. -/
theorem wrap64_of_range (x : Int) (h1 : -(2 ^ 63) ≤ x) (h2 : x < 2 ^ 63) : wrap64 x = x := by
  unfold wrap64
  rw [Int.emod_eq_of_lt (by omega) (by omega)]
  omega

/-- A threshold whose seconds fit `int64` is not wrapped. -/
theorem maxAgeSeconds_of_range (age : Int) (h1 : -(2 ^ 63) ≤ age * 86400)
    (h2 : age * 86400 < 2 ^ 63) : maxAgeSeconds age = age * 86400 := by
  unfold maxAgeSeconds
  rw [wrap64_of_range age (by omega) (by omega),
    wrap64_of_range (age * 24) (by omega) (by omega),
    wrap64_of_range (age * 24 * 60) (by omega) (by omega),
    wrap64_of_range (age * 24 * 60 * 60) (by omega) (by omega)]
  ring

/-- The test of line 487 on values that fit `int64`, the clock not before 1970. -/
theorem isOld_of_range (now age : Int) (e : CacheEntry)
    (hnow : 0 ≤ now ∧ now < 2 ^ 63)
    (hage : -(2 ^ 63) ≤ age * 86400 ∧ age * 86400 < 2 ^ 63)
    (hmod : e.ModTime < 2 ^ 63) :
    (isOld now (maxAgeSeconds age) e = true ↔
      0 < e.ModTime ∧ now - e.ModTime > age * 86400) := by
  unfold isOld
  rw [maxAgeSeconds_of_range age hage.1 hage.2]
  by_cases hpos : 0 < e.ModTime
  · rw [wrap64_of_range (now - e.ModTime) (by omega) (by omega)]
    simp [hpos]
  · simp [hpos]

/-- Claim C6, an entry dated before 1970: at the clock 1700000000 and a threshold of 20000
days, the entry dated 20001 days back has a modification time below 0; the test
`entry.ModTime > 0` of line 487 keeps it. -/
theorem C6_entry_before_epoch_is_kept :
    1700000000 - (20000 + 1) * 86400 = (-28086400 : Int) ∧
    IsUpToDate (ageEviction 1700000000 20000
      [("old.txt", ⟨5, 532, 1700000000 - (20000 + 1) * 86400⟩)]).1 "old.txt" =
        some ⟨5, 532, -28086400⟩ := by
  decide

/-- The threshold in seconds wraps for a number of days whose seconds do not fit `int64`:
at 106751991167301 days the threshold is negative and an entry one second old is
removed. -/
theorem ageEviction_threshold_wraps :
    maxAgeSeconds 106751991167301 = -9223372036854745216 ∧
    IsUpToDate (ageEviction 1700000000 106751991167301
      [("new.txt", ⟨5, 552, 1700000000 - 1⟩)]).1 "new.txt" = none := by
  decide

/-- Claim C6, for a threshold whose seconds fit `int64` and dates after 1970: the removal of
old entries in `main`, for a clock and modification times that fit `int64` and a number of
days `age` with `age * 86400` in the range of `int64`: an entry is removed exactly when its
modification time is greater than 0 and `now - modTime > age * 86400`; every other entry,
in particular every entry with modification time 0, stays as it is. Hence an entry dated
`age + 1` days back is removed when that date is greater than 0, and an entry dated
`age - 1` days back is retained. -/
theorem C6_age_eviction (now age : Int) (c : GlobalCache) (k : String)
    (hnow : 0 ≤ now ∧ now < 2 ^ 63)
    (hage : -(2 ^ 63) ≤ age * 86400 ∧ age * 86400 < 2 ^ 63)
    (hmod : ∀ k e, IsUpToDate c k = some e → e.ModTime < 2 ^ 63) :
    (IsUpToDate (ageEviction now age c).1 k =
      match IsUpToDate c k with
      | some e => if 0 < e.ModTime ∧ now - e.ModTime > age * 86400 then none else some e
      | none => none) ∧
    (∀ e, IsUpToDate c k = some e → e.ModTime = 0 →
      IsUpToDate (ageEviction now age c).1 k = some e) ∧
    (∀ e, IsUpToDate c k = some e → e.ModTime = now - (age + 1) * 86400 → 0 < e.ModTime →
      IsUpToDate (ageEviction now age c).1 k = none) ∧
    (∀ e, IsUpToDate c k = some e → e.ModTime = now - (age - 1) * 86400 →
      IsUpToDate (ageEviction now age c).1 k = some e) := by
  have hfst : (ageEviction now age c).1 = removeOldEntries now age c := by
    unfold ageEviction
    simp only
    split <;> rfl
  have main : IsUpToDate (ageEviction now age c).1 k =
      match IsUpToDate c k with
      | some e => if 0 < e.ModTime ∧ now - e.ModTime > age * 86400 then none else some e
      | none => none := by
    rw [hfst, IsUpToDate_removeOldEntries]
    rcases he : IsUpToDate c k with _ | e
    · rfl
    · have h := isOld_of_range now age e hnow hage (hmod k e he)
      by_cases ho : isOld now (maxAgeSeconds age) e = true
      · simp [ho, h.mp ho]
      · have hn : ¬(0 < e.ModTime ∧ now - e.ModTime > age * 86400) := fun hc => ho (h.mpr hc)
        simp only [ho, hn]
        simp
  refine ⟨main, ?_, ?_, ?_⟩
  · intro e he h0
    rw [main, he]
    simp [h0]
  · intro e he hd hpos
    rw [main, he]
    have : now - e.ModTime > age * 86400 := by omega
    simp [hpos, this]
  · intro e he hd
    rw [main, he]
    have : ¬ now - e.ModTime > age * 86400 := by omega
    simp [this]

/-- C6 at a threshold of 90 days and the clock at 1700000000: the entry dated 91 days back
is removed. -/
theorem C6_age_eviction_witness :
    IsUpToDate (ageEviction 1700000000 90
      [("old.txt", ⟨5, 532, 1700000000 - 91 * 86400⟩),
       ("new.txt", ⟨5, 552, 1700000000 - 89 * 86400⟩)]).1 "old.txt" = none :=
  (C6_age_eviction 1700000000 90
    [("old.txt", ⟨5, 532, 1700000000 - 91 * 86400⟩),
     ("new.txt", ⟨5, 552, 1700000000 - 89 * 86400⟩)] "old.txt"
    (by decide) (by decide)
    (fun k e he => by
      simp only [IsUpToDate, mget] at he
      split at he
      · cases he
        decide
      · split at he
        · cases he
          decide
        · cases he)).2.2.1 ⟨5, 532, 1700000000 - 91 * 86400⟩ (by decide) (by decide)
      (by decide)

/-- A cache without bindings is the empty list. -/
theorem eq_nil_of_IsUpToDate_none (c : GlobalCache) (h : ∀ k, IsUpToDate c k = none) :
    c = [] := by
  cases c with
  | nil => rfl
  | cons p c =>
    obtain ⟨a, v⟩ := p
    have := h a
    simp [IsUpToDate, mget] at this

/-- C7, what the code does: when every entry of the cache is old, the removal empties the
cache, the test `len(cache.Keys()) > 0` of line 505 then fails, and the cache file is not
deleted: it stays, written by the `SaveCache` of line 492 with the empty mapping. -/
theorem C7_all_stale_keeps_file (now age : Int) (c : GlobalCache)
    (hold : ∀ k e, IsUpToDate c k = some e → isOld now (maxAgeSeconds age) e = true) :
    ageEviction now age c = ([], some []) := by
  have hnil : removeOldEntries now age c = [] := by
    apply eq_nil_of_IsUpToDate_none
    intro k
    rw [IsUpToDate_removeOldEntries]
    rcases he : IsUpToDate c k with _ | e
    · rfl
    · simp [hold k e he]
  unfold ageEviction
  simp [hnil, Keys]

/-- C7 at a cache with one entry dated 91 days back and a threshold of 90 days: the entry is
removed and the cache file is left in place, holding the empty mapping. -/
theorem C7_all_stale_keeps_file_witness :
    ageEviction 1700000000 90 [("a.txt", ⟨5, 532, 1700000000 - 91 * 86400⟩)] =
      ([], some []) :=
  C7_all_stale_keeps_file 1700000000 90 [("a.txt", ⟨5, 532, 1700000000 - 91 * 86400⟩)]
    (fun k e he => by
      simp only [IsUpToDate, mget] at he
      split at he
      · cases he
        decide
      · cases he)

/-! ## C8, C9: the cache file of a pair of paths -/

theorem splitSlash_ne_nil (p : List Char) : splitSlash p ≠ [] := by
  cases p with
  | nil => simp [splitSlash]
  | cons c cs =>
    unfold splitSlash
    split
    · simp
    · split <;> simp

/-- A trailing separator adds one empty element. -/
theorem splitSlash_append_slash (p : List Char) :
    splitSlash (p ++ ['/']) = splitSlash p ++ [[]] := by
  induction p with
  | nil => simp [splitSlash]
  | cons c cs ih =>
    by_cases hc : c = '/'
    · simp [splitSlash, hc, ih]
    · simp only [List.cons_append, splitSlash, hc, if_false]
      have ih' : splitSlash (cs.append ['/']) = splitSlash cs ++ [[]] := ih
      rw [ih']
      rcases hs : splitSlash cs with _ | ⟨e, es⟩
      · exact absurd hs (splitSlash_ne_nil cs)
      · simp

/-- The function `filepath.Clean` drops a trailing separator of a non-empty path. -/
theorem Clean_append_slash (p : List Char) (hp : p ≠ []) : Clean (p ++ ['/']) = Clean p := by
  obtain ⟨c, cs, rfl⟩ := List.exists_cons_of_ne_nil hp
  have hstep : ∀ (r : Bool) (st : CleanState), cleanStep r st [] = st := by
    intro r st
    simp [cleanStep]
  unfold Clean
  simp only [splitSlash_append_slash, List.foldl_append, List.foldl_cons, List.foldl_nil, hstep]
  simp

/-- The function `filepath.Clean` drops the trailing separators of a non-empty path. -/
theorem Clean_append_slashes (p : List Char) (hp : p ≠ []) (k : Nat) :
    Clean (p ++ List.replicate k '/') = Clean p := by
  induction k with
  | zero => simp
  | succ k ih =>
    rw [List.replicate_succ', ← List.append_assoc, Clean_append_slash _ (by simp [hp]), ih]

/-- The function `filepath.Abs` drops the trailing separators of a non-empty path. -/
theorem Abs_append_slashes (wd : Option (List Char)) (p : List Char) (hp : p ≠ [])
    (k : Nat) : Abs wd (p ++ List.replicate k '/') = Abs wd p := by
  have hh : (p ++ List.replicate k '/').head? = p.head? := by
    cases p with
    | nil => exact absurd rfl hp
    | cons c cs => rfl
  unfold Abs
  rw [hh]
  split
  · exact Clean_append_slashes p hp k
  · cases wd with
    | none => rfl
    | some w =>
      unfold Join
      by_cases hw : w = []
      · simp only [hw, if_true]
        rw [Clean_append_slashes p hp k]
        simp [hp]
      · simp only [hw, if_false]
        have : w ++ '/' :: (p ++ List.replicate k '/') =
            (w ++ '/' :: p) ++ List.replicate k '/' := by simp
        rw [this, Clean_append_slashes _ (by simp)]

/-- What `dropWhile` leaves does not start with a character it drops. -/
theorem dropWhile_slash_idem (l : List Char) :
    (l.dropWhile (fun c => decide (c = '/'))).dropWhile (fun c => decide (c = '/')) =
      l.dropWhile (fun c => decide (c = '/')) := by
  induction l with
  | nil => rfl
  | cons c cs ih =>
    by_cases hc : c = '/'
    · simpa [List.dropWhile, hc] using ih
    · simp [List.dropWhile, hc]

/-- What `dropWhile` leaves starts with a character it keeps. -/
theorem dropWhile_slash_head (l : List Char) (c : Char) (d : List Char)
    (h : l.dropWhile (fun c => decide (c = '/')) = c :: d) : c ≠ '/' := by
  induction l with
  | nil => cases h
  | cons a l ih =>
    by_cases ha : a = '/'
    · simp only [List.dropWhile, ha, decide_True] at h
      exact ih h
    · simp only [List.dropWhile, ha, decide_False] at h
      cases h
      exact ha

/-- The base name of a path without trailing separators has no separator. -/
theorem Base_trimRightSlash_no_slash (x : List Char) : '/' ∉ Base (trimRightSlash x) := by
  unfold Base trimRightSlash
  simp only [List.reverse_reverse, List.reverse_eq_nil_iff, dropWhile_slash_idem]
  rcases hd : x.reverse.dropWhile (fun c => decide (c = '/')) with _ | ⟨c, d⟩
  · simp
  · have hc : c ≠ '/' := dropWhile_slash_head x.reverse c d hd
    simp only [List.cons_ne_nil, if_false, List.takeWhile, hc, ne_eq, not_false_eq_true,
      decide_True, List.reverse_cons, List.append_eq_nil, List.cons_ne_nil, and_false]
    intro hmem
    simp only [List.mem_append, List.mem_reverse, List.mem_singleton] at hmem
    rcases hmem with h | h
    · have := List.mem_takeWhile_imp h
      simp at this
    · exact hc h.symm

/-- The sanitized name holds no colon and no space, and no separator the name did not
hold. -/
theorem sanitize_safe (s : List Char) (hs : '/' ∉ s) :
    '/' ∉ sanitize s ∧ ':' ∉ sanitize s ∧ ' ' ∉ sanitize s := by
  unfold sanitize
  refine ⟨?_, ?_, ?_⟩
  · intro h
    obtain ⟨c, hc, heq⟩ := List.mem_map.mp h
    split at heq
    · cases heq
    · exact hs (heq ▸ hc)
  · intro h
    obtain ⟨c, hc, heq⟩ := List.mem_map.mp h
    split at heq
    · cases heq
    · rename_i hn
      exact hn (Or.inl heq)
  · intro h
    obtain ⟨c, hc, heq⟩ := List.mem_map.mp h
    split at heq
    · cases heq
    · rename_i hn
      exact hn (Or.inr heq)

/-- A hexadecimal digit is no separator, colon or space. -/
theorem hexDigit_safe (n : Nat) : hexDigit n ≠ '/' ∧ hexDigit n ≠ ':' ∧ hexDigit n ≠ ' ' := by
  unfold hexDigit
  split <;> decide

/-- The hexadecimal text of a digest holds only hexadecimal digits. -/
theorem hexOfSum_safe (sum : Fin 32 → Nat) (c : Char) (hc : c ∈ hexOfSum sum) :
    c ≠ '/' ∧ c ≠ ':' ∧ c ≠ ' ' := by
  unfold hexOfSum at hc
  obtain ⟨b, _, hb⟩ := List.mem_flatMap.mp hc
  simp only [List.mem_cons, List.mem_singleton, List.not_mem_nil, or_false] at hb
  rcases hb with h | h
  · rw [h]
    exact hexDigit_safe _
  · rw [h]
    exact hexDigit_safe _

/-- The hexadecimal text of a digest has 64 characters. -/
theorem hexOfSum_length (sum : Fin 32 → Nat) : (hexOfSum sum).length = 64 := by
  have h : ∀ l : List Nat,
      (l.flatMap (fun b => [hexDigit (b % 256 / 16), hexDigit (b % 256)])).length =
        2 * l.length := by
    intro l
    induction l with
    | nil => rfl
    | cons a l ih =>
      simp only [List.flatMap_cons, List.length_append, ih, List.length_cons, List.length_nil]
      omega
  unfold hexOfSum
  rw [h, List.length_ofFn]

/-- The name of the cache file holds no separator, colon or space. -/
theorem cacheFileName_safe (sum : List Char → Fin 32 → Nat) (absSrc absDst : List Char) :
    '/' ∉ cacheFileName sum absSrc absDst ∧ ':' ∉ cacheFileName sum absSrc absDst ∧
      ' ' ∉ cacheFileName sum absSrc absDst := by
  have h1 := sanitize_safe _ (Base_trimRightSlash_no_slash absSrc)
  have h2 := sanitize_safe _ (Base_trimRightSlash_no_slash absDst)
  have h3 : ∀ c, c ∈ (hexOfSum (sum (absSrc ++ '|' :: absDst))).take 8 →
      c ≠ '/' ∧ c ≠ ':' ∧ c ≠ ' ' := fun c hc =>
    hexOfSum_safe _ c (List.mem_of_mem_take hc)
  unfold cacheFileName
  refine ⟨?_, ?_, ?_⟩
  · intro h
    simp only [List.mem_append] at h
    rcases h with (((h | h) | h) | h) | h
    · exact h1.1 h
    · revert h
      decide
    · exact h2.1 h
    · revert h
      decide
    · exact (h3 _ h).1 rfl
  · intro h
    simp only [List.mem_append] at h
    rcases h with (((h | h) | h) | h) | h
    · exact h1.2.1 h
    · revert h
      decide
    · exact h2.2.1 h
    · revert h
      decide
    · exact (h3 _ h).2.1 rfl
  · intro h
    simp only [List.mem_append] at h
    rcases h with (((h | h) | h) | h) | h
    · exact h1.2.2 h
    · revert h
      decide
    · exact h2.2.2 h
    · revert h
      decide
    · exact (h3 _ h).2.2 rfl

/-- The pairs `("/x|/x", "/x")` and `("/x", "/x|/x")` share a cache file whatever the digest
is: both are hashed as `/x|/x|/x` and both have the base names `x` and `x`. -/
theorem LocalCacheFile_pipe_collision (sum : List Char → Fin 32 → Nat)
    (wd : Option (List Char)) :
    LocalCacheFile sum wd "/x|/x" "/x" = LocalCacheFile sum wd "/x" "/x|/x" := by
  have h1 : Abs wd "/x|/x".data = "/x|/x".data := by
    have hc : Clean "/x|/x".data = "/x|/x".data := by decide
    have hh : "/x|/x".data.head? = some '/' := by decide
    unfold Abs
    rw [if_pos hh, hc]
  have h2 : Abs wd "/x".data = "/x".data := by
    have hc : Clean "/x".data = "/x".data := by decide
    have hh : "/x".data.head? = some '/' := by decide
    unfold Abs
    rw [if_pos hh, hc]
  unfold LocalCacheFile
  rw [h1, h2]
  have h3 : "/x|/x".data ++ '|' :: "/x".data = "/x".data ++ '|' :: "/x|/x".data := by decide
  have h4 : Base (trimRightSlash "/x|/x".data) = Base (trimRightSlash "/x".data) := by decide
  unfold cacheFileName
  rw [h3, h4]

/-- C8, counterexample: two distinct pairs of canonical absolute paths with the same cache
file. -/
theorem C8_distinct_pairs_collide :
    (("/x|/x", "/x") : String × String) ≠ ("/x", "/x|/x") ∧
    Abs exampleWd "/x|/x".data = "/x|/x".data ∧ Abs exampleWd "/x".data = "/x".data ∧
    LocalCacheFile toySum exampleWd "/x|/x" "/x" =
      LocalCacheFile toySum exampleWd "/x" "/x|/x" := by
  decide

/-- C8, amended: two pairs of paths get different cache files whenever the first eight
hexadecimal digits of the digests of their strings `<abs src>|<abs dst>` differ (and a pair
always gets the same file: `LocalCacheFile` is a function). -/
theorem C8_distinct_digest_distinct_file (sum : List Char → Fin 32 → Nat)
    (wd : Option (List Char)) (s1 d1 s2 d2 : String)
    (h : (hexOfSum (sum (Abs wd s1.data ++ '|' :: Abs wd d1.data))).take 8 ≠
      (hexOfSum (sum (Abs wd s2.data ++ '|' :: Abs wd d2.data))).take 8) :
    LocalCacheFile sum wd s1 d1 ≠ LocalCacheFile sum wd s2 d2 := by
  intro heq
  unfold LocalCacheFile at heq
  have h1 := congrArg String.data heq
  simp only [List.append_assoc, List.append_cancel_left_eq] at h1
  have h2 := List.append_cancel_right h1
  unfold cacheFileName at h2
  have hlen : ∀ x : List Char, ((hexOfSum (sum x)).take 8).length = 8 := by
    intro x
    simp [hexOfSum_length]
  exact h (List.append_inj_right' h2 ((hlen _).trans (hlen _).symm))

/-- C8 at the pairs `("/a", "/b")` and `("/a", "/bb")`. -/
theorem C8_distinct_digest_distinct_file_witness :
    LocalCacheFile toySum exampleWd "/a" "/b" ≠ LocalCacheFile toySum exampleWd "/a" "/bb" :=
  C8_distinct_digest_distinct_file toySum exampleWd "/a" "/b" "/a" "/bb" (by decide)

/-- C9, counterexample: from the working directory `/home/u`, a separator added to the empty
source path changes the cache file. -/
theorem C9_empty_path_changes :
    LocalCacheFile toySum exampleWd ("" ++ "/") "/d" ≠ LocalCacheFile toySum exampleWd "" "/d" := by
  decide

/-- C9, amended: for non-empty source and destination paths, trailing separators added to
either argument do not change the result; and for all paths the result is
`.cache_cache_copy/<name>.json` with a name that holds no separator, colon or space. -/
theorem C9_trailing_separators (sum : List Char → Fin 32 → Nat) (wd : Option (List Char))
    (src dst : String) (k1 k2 : Nat) :
    (src ≠ "" → dst ≠ "" →
      LocalCacheFile sum wd (src ++ String.mk (List.replicate k1 '/'))
        (dst ++ String.mk (List.replicate k2 '/')) = LocalCacheFile sum wd src dst) ∧
    ∃ name : List Char,
      LocalCacheFile sum wd src dst =
        String.mk (".cache_cache_copy/".data ++ name ++ ".json".data) ∧
      '/' ∉ name ∧ ':' ∉ name ∧ ' ' ∉ name := by
  refine ⟨?_, cacheFileName sum (Abs wd src.data) (Abs wd dst.data), rfl,
    cacheFileName_safe sum _ _⟩
  intro hs hd
  have hs' : src.data ≠ [] := fun h => hs (String.ext h)
  have hd' : dst.data ≠ [] := fun h => hd (String.ext h)
  unfold LocalCacheFile
  rw [String.data_append, String.data_append, Abs_append_slashes wd _ hs',
    Abs_append_slashes wd _ hd']

/-- C9 at the paths `my src` and `/d:st` with two and one separators added. -/
theorem C9_trailing_separators_witness :
    LocalCacheFile toySum exampleWd ("my src" ++ String.mk (List.replicate 2 '/'))
      ("/d:st" ++ String.mk (List.replicate 1 '/')) =
      LocalCacheFile toySum exampleWd "my src" "/d:st" :=
  (C9_trailing_separators toySum exampleWd "my src" "/d:st" 2 1).1 (by decide) (by decide)

/-! ## C10: the mirror step -/

/-- C10, what the code does: the source holds the regular file `a`, the destination the
directory `a` with the file `a/x`. The stat of `a/x` below the source fails with `ENOTDIR`,
of which `os.IsNotExist` does not hold, so `deleteExtraFiles` returns without error and
`a/x`, which has no counterpart in the source, is still in the destination. -/
theorem C10_orphan_below_source_file_stays :
    (deleteExtraFiles "/dst" mirrorSrc mirrorDst (fun _ => true) (fun _ => true) []).err = none ∧
    (⟨["a", "x"], false⟩ : TreeEntry) ∈
      (deleteExtraFiles "/dst" mirrorSrc mirrorDst (fun _ => true) (fun _ => true) []).dst ∧
    (∀ e ∈ mirrorSrc, e.path ≠ ["a", "x"]) ∧
    IsNotExist (statTree mirrorSrc ["a", "x"]) = false := by
  decide

/-! ## C11: the cache after the mirror step -/

/-- The mirror step removes from the cache only keys that are destination paths of
directories it has marked: every other key keeps its entry. -/
theorem removeDeletedDirs_cache (dstDir : String) (removeAllOk : List String → Bool)
    (dirs : List (List String)) :
    ∀ (dst : Tree) (cache : GlobalCache) (k : String),
      (∀ dir ∈ dirs, joinRoot dstDir dir ≠ k) →
      IsUpToDate (removeDeletedDirs dstDir removeAllOk dirs dst cache).cache k =
        IsUpToDate cache k := by
  induction dirs with
  | nil =>
    intro dst cache k _
    rfl
  | cons dir dirs ih =>
    intro dst cache k hk
    unfold removeDeletedDirs
    split
    · rw [ih _ _ k (fun d hd => hk d (List.mem_cons_of_mem _ hd)), IsUpToDate_Remove]
      simp [hk dir (List.mem_cons_self _ _)]
    · rfl

/-- C11, what the code does: the source is empty, the destination holds `old.txt` and the
directory `sub` with `sub/f.txt`, and the cache has entries for `old.txt` and `sub/f.txt`.
`deleteExtraFiles` returns without error and empties the destination, but the only key it
removes from the cache is the destination path `/dst/sub`: both entries are still there. -/
theorem C11_cache_rows_of_deleted_files_stay :
    (deleteExtraFiles "/dst" [] orphanDst (fun _ => true) (fun _ => true) orphanCache).err =
      none ∧
    (deleteExtraFiles "/dst" [] orphanDst (fun _ => true) (fun _ => true) orphanCache).dst =
      [] ∧
    IsUpToDate (deleteExtraFiles "/dst" [] orphanDst (fun _ => true) (fun _ => true)
      orphanCache).cache "old.txt" = some ⟨3, 7, 1000⟩ ∧
    IsUpToDate (deleteExtraFiles "/dst" [] orphanDst (fun _ => true) (fun _ => true)
      orphanCache).cache "sub/f.txt" = some ⟨4, 9, 1000⟩ := by
  decide

/-! ## C12: cache entries of missing source files -/

/-- The loop of `CleanUpMissingFiles` over any list of keys. -/
theorem IsUpToDate_foldl_cleanUp (stat : String → Except Errno Bool) (keys : List String) :
    ∀ (c : GlobalCache) (k : String),
      IsUpToDate (keys.foldl (fun c path => if IsNotExist (stat path) then mdel c path else c)
        c) k =
        if k ∈ keys ∧ IsNotExist (stat k) = true then none else IsUpToDate c k := by
  induction keys with
  | nil =>
    intro c k
    simp
  | cons key keys ih =>
    intro c k
    rw [List.foldl_cons, ih]
    by_cases hk : key = k
    · subst hk
      cases hs : IsNotExist (stat key)
      · simp [hs]
      · simp [hs, IsUpToDate, mget_mdel]
    · cases hs : IsNotExist (stat key)
      · simp [hs, hk, Ne.symm hk]
      · simp [hs, hk, Ne.symm hk, IsUpToDate, mget_mdel]

/-- The loop of `main` over any list of stale keys. -/
theorem IsUpToDate_foldl_Remove (keys : List String) :
    ∀ (c : GlobalCache) (k : String),
      IsUpToDate (keys.foldl Remove c) k = if k ∈ keys then none else IsUpToDate c k := by
  induction keys with
  | nil =>
    intro c k
    simp
  | cons key keys ih =>
    intro c k
    rw [List.foldl_cons, ih, IsUpToDate_Remove]
    by_cases hk : key = k
    · simp [hk]
    · simp [hk, Ne.symm hk]

/-- What the pass removes: exactly the entries whose stat fails with `ENOENT`; every other
entry, also one whose stat fails with another error, stays as it is. -/
theorem IsUpToDate_CleanUpMissingFiles (stat : String → Except Errno Bool) (c : GlobalCache)
    (k : String) :
    IsUpToDate (CleanUpMissingFiles stat c) k =
      if IsNotExist (stat k) = true then none else IsUpToDate c k := by
  unfold CleanUpMissingFiles
  rw [IsUpToDate_foldl_cleanUp]
  by_cases hs : IsNotExist (stat k) = true
  · rcases he : IsUpToDate c k with _ | e
    · simp [hs]
    · have hk : k ∈ Keys c := (mem_Keys c k).mpr ⟨e, he⟩
      simp [hs, hk]
  · simp [hs]

/-- The loop of `main` removes the same entries as `CleanUpMissingFiles`. -/
theorem IsUpToDate_autoClean (stat : String → Except Errno Bool) (c : GlobalCache)
    (k : String) :
    IsUpToDate (autoClean stat c) k =
      if IsNotExist (stat k) = true then none else IsUpToDate c k := by
  unfold autoClean
  rw [IsUpToDate_foldl_Remove]
  by_cases hs : IsNotExist (stat k) = true
  · rcases he : IsUpToDate c k with _ | e
    · simp [hs]
    · have hk : k ∈ Keys c := (mem_Keys c k).mpr ⟨e, he⟩
      simp [hs, hk]
  · simp [hs]

/-- C12, what the code does: the source holds the regular file `a` and the cache an entry for
`a/x`. The stat of `a/x` below the source fails with `ENOTDIR`, not `ENOENT`, so neither
`CleanUpMissingFiles` nor the loop of `main` removes the entry, although `a/x` is no
existing file of the source. -/
theorem C12_entry_below_source_file_stays :
    (∀ e ∈ mirrorSrc, e.path ≠ relElems "a/x") ∧
    IsUpToDate (CleanUpMissingFiles (fun k => statTree mirrorSrc (relElems k))
      [("a/x", ⟨4, 9, 1000⟩)]) "a/x" = some ⟨4, 9, 1000⟩ ∧
    IsUpToDate (autoClean (fun k => statTree mirrorSrc (relElems k))
      [("a/x", ⟨4, 9, 1000⟩)]) "a/x" = some ⟨4, 9, 1000⟩ := by
  decide

/-! ## C14, C20: ParseSize -/

/-- A decimal digit is no white space, newline or sign. -/
theorem isDigit_plain (c : Char) (h : c.isDigit = true) :
    isSpace c = false ∧ c ≠ '\n' ∧ c ≠ '-' ∧ c ≠ '+' := by
  have h1 : 48 ≤ c.toNat ∧ c.toNat ≤ 57 := by
    simp only [Char.isDigit, Bool.and_eq_true, decide_eq_true_eq] at h
    exact ⟨h.1, h.2⟩
  refine ⟨?_, ?_, ?_, ?_⟩
  · simp only [isSpace, Bool.or_eq_false_iff, Bool.and_eq_false_iff, decide_eq_false_iff_not]
    omega
  · rintro rfl
    simp at h1
  · rintro rfl
    simp at h1
  · rintro rfl
    simp at h1

/-- On a string of digits `takeWhile` takes everything. -/
theorem takeWhile_isDigit (ds : List Char) (h : ∀ c ∈ ds, c.isDigit = true) :
    ds.takeWhile Char.isDigit = ds ∧ ds.dropWhile Char.isDigit = [] := by
  induction ds with
  | nil => exact ⟨rfl, rfl⟩
  | cons c cs ih =>
    have hc := h c (List.mem_cons_self _ _)
    have ih' := ih (fun d hd => h d (List.mem_cons_of_mem _ hd))
    simp [List.takeWhile, List.dropWhile, hc, ih'.1, ih'.2]

/-- The scan of a string of digits stops after the number: `n` is not 2 and `err` is not
nil. -/
theorem Sscanf_digits (ds : List Char) (h : ∀ c ∈ ds, c.isDigit = true) :
    (Sscanf ds).n ≠ 2 ∧ (Sscanf ds).errNil = false := by
  cases ds with
  | nil => decide
  | cons c cs =>
    obtain ⟨hsp, hnl, hm, hp⟩ := isDigit_plain c (h c (List.mem_cons_self _ _))
    have htw := takeWhile_isDigit (c :: cs) h
    have hskip : skipSpace (c :: cs) = some (c :: cs) := by
      simp [skipSpace, hnl, hsp]
    have hscan : scanInt (c :: cs) = none ∨
        ∃ i, scanInt (c :: cs) = some (i, []) := by
      unfold scanInt
      simp only [hskip, hm, hp, or_self, if_false, htw.1, htw.2, decide_False,
        Bool.false_eq_true, List.cons_ne_nil]
      by_cases hr : digitsValue (c :: cs) < -(2 ^ 63) ∨ 2 ^ 63 ≤ digitsValue (c :: cs)
      · left
        rw [if_pos hr]
      · right
        exact ⟨digitsValue (c :: cs), by rw [if_neg hr]⟩
    unfold Sscanf
    rcases hscan with h0 | ⟨i, h1⟩
    · rw [h0]
      exact ⟨by decide, rfl⟩
    · rw [h1]
      simp [scanWord, skipSpace]

/-- C14, what the code does: on a string of decimal digits without a unit `Sscanf` fills
one operand and returns the error `unexpected EOF`, so the test `n == 1 && err == nil` of
line 64 fails and `ParseSize` returns the error `invalid size format`, not the number. -/
theorem C14_plain_byte_count_rejected (ds : List Char) (h : ∀ c ∈ ds, c.isDigit = true) :
    ParseSize (String.mk ds) = .error .invalidFormat := by
  obtain ⟨h2, he⟩ := Sscanf_digits ds h
  unfold ParseSize
  simp [he]

/-- C14 at `1048576`, the example of the usage text. -/
theorem C14_plain_byte_count_rejected_witness :
    ParseSize "1048576" = .error .invalidFormat :=
  C14_plain_byte_count_rejected "1048576".data (by decide)

/-- Claim C20, a buffer size that is not positive: `ParseSize` returns 0 for `0KB` and
-1048576 for `-1MB` without an error. Handed to `runCopyWorkers` as `bufSize`, the size 0
makes the worker panic at the first file it has to copy, after the destination file was
created empty, and the negative size makes it panic before any file. -/
theorem C20_size_not_positive_panics :
    ParseSize "0KB" = .ok 0 ∧ ParseSize "-1MB" = .ok (-1048576) ∧
    runCopyWorkers sumBytes ⟨false, false, 5⟩ exampleSrc 1 0 [("a.txt", allOk 1000)] [] [] =
      ⟨⟨[], [("a.txt", ⟨[], true⟩)], 0, []⟩, [], true⟩ ∧
    runCopyWorkers sumBytes ⟨false, false, 5⟩ exampleSrc 1 (-1048576)
        [("a.txt", allOk 1000)] [] [] =
      ⟨⟨[], [], 0, []⟩, [], true⟩ := by
  decide

/-- The results of `ParseSize`: whenever it returns without error, the input is a number `k`
followed by a unit that is `B`, `KB` or `MB` up to case, and the result is `k`, `k * 1024` or
`k * 1024 * 1024` in the arithmetic of `int`. The result is positive when `k` is positive and
the product does not overflow, and it is zero or negative when `k` is. -/
theorem ParseSize_result (s : String) (v : Int) (h : ParseSize s = .ok v) :
    ∃ k rest unit, scanInt s.data = some (k, rest) ∧ scanWord rest = some unit ∧
      ((unit.map Char.toUpper = "KB".data ∧ v = wrap64 (k * 1024)) ∨
        (unit.map Char.toUpper = "MB".data ∧ v = wrap64 (wrap64 (k * 1024) * 1024)) ∨
        (unit.map Char.toUpper = "B".data ∧ v = k)) ∧
      (0 < k → k * 1048576 < 2 ^ 63 → 0 < v) ∧
      (k ≤ 0 → -(2 ^ 63) ≤ k * 1048576 → v ≤ 0) := by
  unfold ParseSize Sscanf at h
  rcases hs : scanInt s.data with _ | ⟨k, rest⟩
  · rw [hs] at h
    simp at h
  · rw [hs] at h
    rcases hw : scanWord rest with _ | unit
    · simp [hw] at h
    · simp only [hw, OfNat.ofNat_ne_one, false_and, if_false, and_self, if_true] at h
      have hpos1 : 0 < k → k * 1048576 < 2 ^ 63 → wrap64 (k * 1024) = k * 1024 := fun h1 h2 =>
        wrap64_of_range _ (by omega) (by omega)
      have hneg1 : k ≤ 0 → -(2 ^ 63) ≤ k * 1048576 → wrap64 (k * 1024) = k * 1024 :=
        fun h1 h2 => wrap64_of_range _ (by omega) (by omega)
      refine ⟨k, rest, unit, rfl, hw, ?_⟩
      by_cases hkb : unit.map Char.toUpper = "KB".data
      · rw [if_pos hkb] at h
        cases h
        refine ⟨Or.inl ⟨hkb, rfl⟩, fun h1 h2 => ?_, fun h1 h2 => ?_⟩
        · rw [hpos1 h1 h2]
          omega
        · rw [hneg1 h1 h2]
          omega
      · rw [if_neg hkb] at h
        by_cases hmb : unit.map Char.toUpper = "MB".data
        · rw [if_pos hmb] at h
          cases h
          refine ⟨Or.inr (Or.inl ⟨hmb, rfl⟩), fun h1 h2 => ?_, fun h1 h2 => ?_⟩
          · rw [hpos1 h1 h2, wrap64_of_range _ (by omega) (by omega)]
            omega
          · rw [hneg1 h1 h2, wrap64_of_range _ (by omega) (by omega)]
            omega
        · rw [if_neg hmb] at h
          by_cases hb : unit.map Char.toUpper = "B".data
          · rw [if_pos hb] at h
            cases h
            exact ⟨Or.inr (Or.inr ⟨hb, rfl⟩), fun h1 _ => h1, fun h1 _ => h1⟩
          · rw [if_neg hb] at h
            cases h

/-- The results of `ParseSize` at `4MB`, the default of the flag `-buffer-size`. -/
theorem ParseSize_result_example :
    ∃ k rest unit, scanInt "4MB".data = some (k, rest) ∧ scanWord rest = some unit ∧
      ((unit.map Char.toUpper = "KB".data ∧ (4194304 : Int) = wrap64 (k * 1024)) ∨
        (unit.map Char.toUpper = "MB".data ∧
          (4194304 : Int) = wrap64 (wrap64 (k * 1024) * 1024)) ∨
        (unit.map Char.toUpper = "B".data ∧ (4194304 : Int) = k)) ∧
      (0 < k → k * 1048576 < 2 ^ 63 → 0 < (4194304 : Int)) ∧
      (k ≤ 0 → -(2 ^ 63) ≤ k * 1048576 → (4194304 : Int) ≤ 0) :=
  ParseSize_result "4MB" 4194304 (by decide)

/-! ## C15: the retry policy -/

/-- The retry loop makes at most as many calls as it has iterations left. -/
theorem retryLoop_attempts_le (osOpen : Nat → OpenResult) (left : Nat) :
    ∀ (i : Nat) (err : Option OpenError), (retryLoop osOpen i left err).attempts ≤ left := by
  induction left with
  | zero =>
    intro i err
    simp [retryLoop]
  | succ left ih =>
    intro i err
    unfold retryLoop
    split
    · simp
    · split
      · have := ih (i + 1) (some ‹OpenError›)
        simp only
        omega
      · simp

/-- The retry loop after `k` retryable errors in a row, with iterations left for them. -/
theorem retryLoop_skip (osOpen : Nat → OpenResult) (errs : Nat → OpenError) (k : Nat) :
    ∀ (i left : Nat) (err : Option OpenError),
      (∀ j, j < k → osOpen (i + j) = .failed (errs (i + j)) ∧
        isRetryable (errs (i + j)) = true) →
      retryLoop osOpen i (k + left) err =
        ⟨(retryLoop osOpen (i + k) left (if k = 0 then err else some (errs (i + k - 1)))).file,
          (retryLoop osOpen (i + k) left (if k = 0 then err else some (errs (i + k - 1)))).err,
          (retryLoop osOpen (i + k) left
            (if k = 0 then err else some (errs (i + k - 1)))).attempts + k⟩ := by
  induction k with
  | zero =>
    intro i left err _
    simp
  | succ k ih =>
    intro i left err h
    have h0 := h 0 (Nat.succ_pos k)
    simp only [Nat.add_zero] at h0
    have hstep : retryLoop osOpen i (k + 1 + left) err =
        ⟨(retryLoop osOpen (i + 1) (k + left) (some (errs i))).file,
          (retryLoop osOpen (i + 1) (k + left) (some (errs i))).err,
          (retryLoop osOpen (i + 1) (k + left) (some (errs i))).attempts + 1⟩ := by
      have : k + 1 + left = (k + left) + 1 := by omega
      rw [this]
      simp [retryLoop, h0.1, h0.2]
    have hrec := ih (i + 1) left (some (errs i)) (fun j hj => by
      have := h (j + 1) (by omega)
      have e : i + (j + 1) = i + 1 + j := by omega
      rw [e] at this
      exact this)
    rw [hstep, hrec]
    have e1 : i + 1 + k = i + (k + 1) := by omega
    rw [e1]
    by_cases hk : k = 0
    · subst hk
      simp
    · have e2 : i + (k + 1) - 1 = i + k := by omega
      simp [hk, e2, Nat.add_assoc]

/-- The errors on which the loops retry: a path error with one of the four error numbers. -/
theorem isRetryable_iff (e : OpenError) :
    isRetryable e = true ↔
      e = .pathError .EINTR ∨ e = .pathError .EAGAIN ∨ e = .pathError Errno.EIO ∨
        e = .pathError .EBUSY := by
  cases e with
  | otherError => simp [isRetryable]
  | pathError n => cases n <;> simp [isRetryable]

/-- The retry loop with five iterations, started at the first attempt. -/
theorem retryLoop_five (osOpen : Nat → OpenResult) :
    (retryLoop osOpen 0 5 none).attempts ≤ 5 ∧
    (∀ k, k < 5 → (∀ j, j < k → ∃ e, osOpen j = .failed e ∧ isRetryable e = true) →
      osOpen k = .opened → retryLoop osOpen 0 5 none = ⟨true, none, k + 1⟩) ∧
    (∀ k e, k < 5 → (∀ j, j < k → ∃ e', osOpen j = .failed e' ∧ isRetryable e' = true) →
      osOpen k = .failed e → isRetryable e = false →
      retryLoop osOpen 0 5 none = ⟨false, some e, k + 1⟩) ∧
    (∀ e, (∀ j, j < 5 → ∃ e', osOpen j = .failed e' ∧ isRetryable e' = true) →
      osOpen 4 = .failed e → retryLoop osOpen 0 5 none = ⟨false, some e, 5⟩) := by
  have key : ∀ k, k ≤ 5 →
      (∀ j, j < k → ∃ e, osOpen j = .failed e ∧ isRetryable e = true) →
      retryLoop osOpen 0 5 none =
        ⟨(retryLoop osOpen k (5 - k) (if k = 0 then none else
            some (match osOpen (k - 1) with
              | .failed e => e
              | .opened => .otherError))).file,
          (retryLoop osOpen k (5 - k) (if k = 0 then none else
            some (match osOpen (k - 1) with
              | .failed e => e
              | .opened => .otherError))).err,
          (retryLoop osOpen k (5 - k) (if k = 0 then none else
            some (match osOpen (k - 1) with
              | .failed e => e
              | .opened => .otherError))).attempts + k⟩ := by
    intro k hk h
    have h5 : 5 = k + (5 - k) := by omega
    have hs := retryLoop_skip osOpen
      (fun j => match osOpen j with
        | .failed e => e
        | .opened => .otherError) k 0 (5 - k) none
      (fun j hj => by
        obtain ⟨e, he, hr⟩ := h j hj
        simp only [Nat.zero_add]
        rw [he]
        exact ⟨rfl, hr⟩)
    rw [← h5] at hs
    simpa using hs
  refine ⟨retryLoop_attempts_le osOpen 5 0 none, ?_, ?_, ?_⟩
  · intro k hk h hopen
    rw [key k (Nat.le_of_lt hk) h]
    obtain ⟨m, hm⟩ : ∃ m, 5 - k = m + 1 := ⟨4 - k, by omega⟩
    rw [hm]
    simp [retryLoop, hopen, Nat.add_comm]
  · intro k e hk h hfail hnr
    rw [key k (Nat.le_of_lt hk) h]
    obtain ⟨m, hm⟩ : ∃ m, 5 - k = m + 1 := ⟨4 - k, by omega⟩
    rw [hm]
    simp [retryLoop, hfail, hnr, Nat.add_comm]
  · intro e h hfail
    rw [key 5 (Nat.le_refl 5) h]
    simp [retryLoop, hfail]

/-- C15: `OpenWithRetry` and `CreateWithRetry` with `maxRetries = 5`, for every sequence of
outcomes of the underlying call: at most 5 attempts are made; after retryable errors only,
the first success is returned with the file and no error; the first error that is not a path
error with `EINTR`, `EAGAIN`, `EIO` or `EBUSY` is returned with no further attempt; and after
5 retryable errors the last error is returned. -/
theorem C15_retry_policy (osOpen : Nat → OpenResult) :
    ((OpenWithRetry osOpen 5).attempts ≤ 5 ∧ (CreateWithRetry osOpen 5).attempts ≤ 5) ∧
    (∀ k, k < 5 → (∀ j, j < k → ∃ e, osOpen j = .failed e ∧ isRetryable e = true) →
      osOpen k = .opened →
      OpenWithRetry osOpen 5 = ⟨true, none, k + 1⟩ ∧
        CreateWithRetry osOpen 5 = ⟨true, none, k + 1⟩) ∧
    (∀ k e, k < 5 → (∀ j, j < k → ∃ e', osOpen j = .failed e' ∧ isRetryable e' = true) →
      osOpen k = .failed e → isRetryable e = false →
      OpenWithRetry osOpen 5 = ⟨false, some e, k + 1⟩ ∧
        CreateWithRetry osOpen 5 = ⟨false, some e, k + 1⟩) ∧
    (∀ e, (∀ j, j < 5 → ∃ e', osOpen j = .failed e' ∧ isRetryable e' = true) →
      osOpen 4 = .failed e →
      OpenWithRetry osOpen 5 = ⟨false, some e, 5⟩ ∧
        CreateWithRetry osOpen 5 = ⟨false, some e, 5⟩) ∧
    (∀ e, isRetryable e = true ↔
      e = .pathError .EINTR ∨ e = .pathError .EAGAIN ∨ e = .pathError Errno.EIO ∨
        e = .pathError .EBUSY) := by
  obtain ⟨h1, h2, h3, h4⟩ := retryLoop_five osOpen
  exact ⟨⟨h1, h1⟩, fun k hk h ho => ⟨h2 k hk h ho, h2 k hk h ho⟩,
    fun k e hk h hf hn => ⟨h3 k e hk h hf hn, h3 k e hk h hf hn⟩,
    fun e h hf => ⟨h4 e h hf, h4 e h hf⟩, isRetryable_iff⟩

/-- C15 at two interrupted attempts followed by a success: the third attempt's file is
returned. -/
theorem C15_retry_policy_witness :
    OpenWithRetry flakyOpen 5 = ⟨true, none, 3⟩ ∧ CreateWithRetry flakyOpen 5 = ⟨true, none, 3⟩ :=
  (C15_retry_policy flakyOpen).2.1 2 (by decide)
    (fun j hj => ⟨.pathError .EINTR, by
      have : j = 0 ∨ j = 1 := by omega
      rcases this with h | h <;> subst h <;> decide⟩) (by decide)

/-! ## C16: the fatal path -/

/-- The copy branch meets a fatal condition exactly when one of its calls fails. -/
theorem copyFile_fatal_iff (fp : List Nat → Nat) (cfg : Config) (src : FS) (relPath : String)
    (srcInfo : FileInfo) (io : Answers) (cache : GlobalCache) (dst : FS) :
    (∃ f, (copyFile fp cfg src relPath srcInfo io cache dst).2.2 = some f) ↔
      (io.mkdirAllOk = false ∨ ((Stat dst relPath).isSome = true ∧ io.removeOk = false) ∨
        (OpenWithRetry io.openSrc 5).err.isSome = true ∨
        (CreateWithRetry io.createDst 5).err.isSome = true ∨
        syncWithRetry io.syncOk = false ∨ io.closeDstOk = false ∨ io.closeSrcOk = false ∨
        io.copyErrAt.isSome = true) := by
  unfold copyFile
  repeat' split
  all_goals simp_all

/-- The outcome of a file that is stat'ed and to be copied is fatal exactly when the copy
branch meets a fatal condition. -/
theorem processFile_fatal_iff (fp : List Nat → Nat) (cfg : Config) (src : FS)
    (relPath : String) (io : Answers) (st : State) (srcInfo : FileInfo)
    (hs : Stat src relPath = some srcInfo) (f : FatalAt) :
    (processFile fp cfg src relPath io st).2 = .fatal f ↔
      (checkFile fp cfg src relPath srcInfo io st.cache st.dst).1 = true ∧
      (copyFile fp cfg src relPath srcInfo io
        (checkFile fp cfg src relPath srcInfo io st.cache st.dst).2 st.dst).2.2 = some f := by
  unfold processFile
  simp only [hs]
  cases hc : (checkFile fp cfg src relPath srcInfo io st.cache st.dst).1
  · simp
  · simp only [if_true, true_and]
    rcases hcp : copyFile fp cfg src relPath srcInfo io
        (checkFile fp cfg src relPath srcInfo io st.cache st.dst).2 st.dst with ⟨d, c, _ | g⟩
    · simp
    · simp

/-- A file whose processing is fatal leaves the cache and the progress counter as they
were. -/
theorem processFile_fatal_cache (fp : List Nat → Nat) (cfg : Config) (src : FS)
    (relPath : String) (io : Answers) (st : State) (f : FatalAt)
    (hf : (processFile fp cfg src relPath io st).2 = .fatal f) :
    (processFile fp cfg src relPath io st).1.cache = st.cache ∧
    (processFile fp cfg src relPath io st).1.copiedBytes = st.copiedBytes ∧
    (processFile fp cfg src relPath io st).1.progressCalls = st.progressCalls := by
  revert hf
  unfold processFile
  cases hs : Stat src relPath with
  | none => simp
  | some srcInfo =>
    simp only
    cases hc : (checkFile fp cfg src relPath srcInfo io st.cache st.dst).1
    · simp
    · have hcache := checkFile_copy_cache fp cfg src relPath srcInfo io st.cache st.dst hc
      simp only [if_true, hcache]
      rcases hcp : copyFile fp cfg src relPath srcInfo io st.cache st.dst with ⟨d, c, _ | g⟩
      · simp
      · intro _
        have := copyFile_fatal_cache fp cfg src relPath srcInfo io st.cache st.dst g
          (by rw [hcp])
        rw [hcp] at this
        exact ⟨this, rfl, rfl⟩

/-- C16: in every mode, when the processing of a file meets a fatal condition, the outcome
is a call of the fatal sink, the cache is what it was before the file, and the worker
processes no later file of the queue: its run ends with that outcome, whatever follows in
the queue. A stat'ed file that is to be copied meets a fatal condition exactly when the
creation of the directory, the removal of the old destination, the open or create after
retries, the sync, a close or the copy fails. -/
theorem C16_fatal_path (fp : List Nat → Nat) (cfg : Config) (src : FS) (relPath : String)
    (io : Answers) (st : State) :
    (∀ f, (processFile fp cfg src relPath io st).2 = .fatal f →
      (processFile fp cfg src relPath io st).1.cache = st.cache ∧
      ∀ jobs, runWorker fp cfg src ((relPath, io) :: jobs) st =
        ((processFile fp cfg src relPath io st).1, [.fatal f])) ∧
    (∀ srcInfo, Stat src relPath = some srcInfo →
      (checkFile fp cfg src relPath srcInfo io st.cache st.dst).1 = true →
      ((∃ f, (processFile fp cfg src relPath io st).2 = .fatal f) ↔
        (io.mkdirAllOk = false ∨
          ((Stat st.dst relPath).isSome = true ∧ io.removeOk = false) ∨
          (OpenWithRetry io.openSrc 5).err.isSome = true ∨
          (CreateWithRetry io.createDst 5).err.isSome = true ∨
          syncWithRetry io.syncOk = false ∨ io.closeDstOk = false ∨
          io.closeSrcOk = false ∨ io.copyErrAt.isSome = true))) := by
  refine ⟨fun f hf => ⟨(processFile_fatal_cache fp cfg src relPath io st f hf).1,
    fun jobs => runWorker_cons_fatal fp cfg src relPath io jobs st f hf⟩, ?_⟩
  intro srcInfo hs hc
  rw [← copyFile_fatal_iff fp cfg src relPath srcInfo io
    (checkFile fp cfg src relPath srcInfo io st.cache st.dst).2 st.dst]
  constructor
  · rintro ⟨f, hf⟩
    exact ⟨f, ((processFile_fatal_iff fp cfg src relPath io st srcInfo hs f).mp hf).2⟩
  · rintro ⟨f, hf⟩
    exact ⟨f, (processFile_fatal_iff fp cfg src relPath io st srcInfo hs f).mpr ⟨hc, hf⟩⟩

/-- C16 at `a.txt` of the example tree when the directory cannot be created: the run ends
there and `dir/b.txt` is not processed; the cache is unchanged. -/
theorem C16_fatal_path_witness :
    (processFile sumBytes ⟨false, false, 10⟩ exampleSrc "a.txt" (mkdirFails 1000)
        ⟨exampleCache, [], 0, []⟩).1.cache = exampleCache ∧
    ∀ jobs, runWorker sumBytes ⟨false, false, 10⟩ exampleSrc
        (("a.txt", mkdirFails 1000) :: jobs) ⟨exampleCache, [], 0, []⟩ =
      ((processFile sumBytes ⟨false, false, 10⟩ exampleSrc "a.txt" (mkdirFails 1000)
        ⟨exampleCache, [], 0, []⟩).1, [.fatal .mkdirAll]) :=
  (C16_fatal_path sumBytes ⟨false, false, 10⟩ exampleSrc "a.txt" (mkdirFails 1000)
    ⟨exampleCache, [], 0, []⟩).1 .mkdirAll (by decide)

/-! ## C17: the progress counter -/

/-- The loop of `totalBytes` started from any value. -/
theorem foldl_totalBytes (src : FS) (fileList : List String) :
    ∀ a : Int,
      fileList.foldl (fun total relPath =>
        match Stat src relPath with
        | some info => total + info.Size
        | none => total) a = a + totalBytesOf src fileList := by
  induction fileList with
  | nil =>
    intro a
    simp [totalBytesOf]
  | cons f fs ih =>
    intro a
    have h1 := ih (match Stat src f with
      | some info => a + info.Size
      | none => a)
    have h2 := ih (match Stat src f with
      | some info => 0 + info.Size
      | none => 0)
    have h3 : totalBytesOf src (f :: fs) =
        fs.foldl (fun total relPath =>
          match Stat src relPath with
          | some info => total + info.Size
          | none => total) (match Stat src f with
            | some info => 0 + info.Size
            | none => 0) := rfl
    rw [List.foldl_cons, h1, h3, h2]
    cases Stat src f with
    | none => simp
    | some info =>
      simp only
      omega

/-- The total of a list with one more file in front. -/
theorem totalBytesOf_cons (src : FS) (f : String) (fs : List String) (info : FileInfo)
    (h : Stat src f = some info) :
    totalBytesOf src (f :: fs) = info.Size + totalBytesOf src fs := by
  unfold totalBytesOf
  rw [List.foldl_cons, foldl_totalBytes, h]
  simp [totalBytesOf]

/-- The size of a file is not negative. -/
theorem Stat_size_nonneg (fs : FS) (p : String) (info : FileInfo) (h : Stat fs p = some info) :
    0 ≤ info.Size := by
  unfold Stat at h
  cases hm : mget fs p with
  | none => simp [hm] at h
  | some f =>
    simp only [hm, Option.some.injEq] at h
    rw [← h]
    exact Int.natCast_nonneg _

/-- The progress accounting of a file that is stat'ed and skipped or copied: its size is
added once, and the callback is called when due or when the total is reached. -/
theorem processFile_progress (fp : List Nat → Nat) (cfg : Config) (src : FS)
    (relPath : String) (io : Answers) (st : State) (srcInfo : FileInfo)
    (hs : Stat src relPath = some srcInfo)
    (hnf : ∀ f, (processFile fp cfg src relPath io st).2 ≠ .fatal f) :
    (processFile fp cfg src relPath io st).1.copiedBytes = st.copiedBytes + srcInfo.Size ∧
    (processFile fp cfg src relPath io st).1.progressCalls =
      (addProgress cfg srcInfo.Size io st.copiedBytes st.progressCalls).2 := by
  revert hnf
  unfold processFile
  simp only [hs]
  split
  · rcases hcp : copyFile fp cfg src relPath srcInfo io
        (checkFile fp cfg src relPath srcInfo io st.cache st.dst).2 st.dst with ⟨d, c, _ | g⟩
    · intro _
      simp only
      unfold addProgress
      simp only
      split <;> simp
    · intro h
      exact absurd rfl (h g)
  · intro _
    simp only
    unfold addProgress
    simp only
    split <;> simp

/-- The progress counter never decreases over the processing of a file. -/
theorem processFile_copiedBytes_mono (fp : List Nat → Nat) (cfg : Config) (src : FS)
    (relPath : String) (io : Answers) (st : State) :
    st.copiedBytes ≤ (processFile fp cfg src relPath io st).1.copiedBytes := by
  cases hs : Stat src relPath with
  | none => simp [processFile, hs]
  | some srcInfo =>
    by_cases hnf : ∀ f, (processFile fp cfg src relPath io st).2 ≠ .fatal f
    · rw [(processFile_progress fp cfg src relPath io st srcInfo hs hnf).1]
      have := Stat_size_nonneg src relPath srcInfo hs
      omega
    · simp only [not_forall, not_not] at hnf
      obtain ⟨f, hf⟩ := hnf
      rw [(processFile_fatal_cache fp cfg src relPath io st f hf).2.1]

/-- A run without a fatal condition has none at its first file. -/
theorem runWorker_head_not_fatal (fp : List Nat → Nat) (cfg : Config) (src : FS)
    (relPath : String) (io : Answers) (jobs : List (String × Answers)) (st : State)
    (hnf : ∀ f, Outcome.fatal f ∉ (runWorker fp cfg src ((relPath, io) :: jobs) st).2) :
    ∀ f, (processFile fp cfg src relPath io st).2 ≠ .fatal f := by
  intro f hf
  apply hnf f
  rw [runWorker_cons_fatal fp cfg src relPath io jobs st f hf]
  simp

/-- A run without a fatal condition has none after its first file. -/
theorem runWorker_tail_not_fatal (fp : List Nat → Nat) (cfg : Config) (src : FS)
    (relPath : String) (io : Answers) (jobs : List (String × Answers)) (st : State)
    (hnf : ∀ f, Outcome.fatal f ∉ (runWorker fp cfg src ((relPath, io) :: jobs) st).2) :
    ∀ f, Outcome.fatal f ∉
      (runWorker fp cfg src jobs (processFile fp cfg src relPath io st).1).2 := by
  intro f hf
  apply hnf f
  rw [runWorker_cons fp cfg src relPath io jobs st
    (runWorker_head_not_fatal fp cfg src relPath io jobs st hnf)]
  exact List.mem_cons_of_mem _ hf

/-- A run over a list in two parts: the second part starts from the state the first part
has left, when the first part has met no fatal condition. -/
theorem runWorker_append (fp : List Nat → Nat) (cfg : Config) (src : FS)
    (pre post : List (String × Answers)) :
    ∀ st : State, (∀ f, Outcome.fatal f ∉ (runWorker fp cfg src pre st).2) →
      runWorker fp cfg src (pre ++ post) st =
        ((runWorker fp cfg src post (runWorker fp cfg src pre st).1).1,
          (runWorker fp cfg src pre st).2 ++
            (runWorker fp cfg src post (runWorker fp cfg src pre st).1).2) := by
  induction pre with
  | nil => intro st _; simp [runWorker]
  | cons j pre ih =>
    obtain ⟨relPath, io⟩ := j
    intro st hnf
    have hh := runWorker_head_not_fatal fp cfg src relPath io pre st hnf
    have ht := runWorker_tail_not_fatal fp cfg src relPath io pre st hnf
    rw [List.cons_append, runWorker_cons fp cfg src relPath io (pre ++ post) st hh,
      runWorker_cons fp cfg src relPath io pre st hh, ih _ ht]
    simp

/-- A run without a fatal condition has none in a first part of the list. -/
theorem runWorker_prefix_not_fatal (fp : List Nat → Nat) (cfg : Config) (src : FS)
    (pre post : List (String × Answers)) :
    ∀ st : State, (∀ f, Outcome.fatal f ∉ (runWorker fp cfg src (pre ++ post) st).2) →
      ∀ f, Outcome.fatal f ∉ (runWorker fp cfg src pre st).2 := by
  induction pre with
  | nil => intro st _ f; simp [runWorker]
  | cons j pre ih =>
    obtain ⟨relPath, io⟩ := j
    intro st hnf f
    rw [List.cons_append] at hnf
    have hh := runWorker_head_not_fatal fp cfg src relPath io (pre ++ post) st hnf
    have ht := runWorker_tail_not_fatal fp cfg src relPath io (pre ++ post) st hnf
    rw [runWorker_cons fp cfg src relPath io pre st hh]
    simp only [List.mem_cons, not_or]
    exact ⟨fun h => hh f h.symm, ih _ ht f⟩

/-- The counter after a run without a fatal condition over files that can all be stat'ed. -/
theorem runWorker_copiedBytes (fp : List Nat → Nat) (cfg : Config) (src : FS)
    (jobs : List (String × Answers)) :
    ∀ st : State, (∀ j ∈ jobs, (Stat src j.1).isSome = true) →
      (∀ f, Outcome.fatal f ∉ (runWorker fp cfg src jobs st).2) →
      (runWorker fp cfg src jobs st).1.copiedBytes =
        st.copiedBytes + totalBytesOf src (jobs.map Prod.fst) := by
  induction jobs with
  | nil => intro st _ _; simp [runWorker, totalBytesOf]
  | cons j jobs ih =>
    obtain ⟨relPath, io⟩ := j
    intro st hstat hnf
    have hh := runWorker_head_not_fatal fp cfg src relPath io jobs st hnf
    have ht := runWorker_tail_not_fatal fp cfg src relPath io jobs st hnf
    obtain ⟨info, hs⟩ := Option.isSome_iff_exists.mp (hstat (relPath, io) (List.mem_cons_self _ _))
    rw [runWorker_cons fp cfg src relPath io jobs st hh]
    simp only [List.map_cons]
    rw [ih _ (fun j hj => hstat j (List.mem_cons_of_mem _ hj)) ht,
      (processFile_progress fp cfg src relPath io st info hs hh).1,
      totalBytesOf_cons src relPath _ info hs]
    omega

/-- The latest call of the progress callback after a run, without a fatal condition, over a
list of files that is not empty and brings the counter to the total. -/
theorem runWorker_progress_head (fp : List Nat → Nat) (cfg : Config) (src : FS)
    (jobs : List (String × Answers)) :
    ∀ st : State, jobs ≠ [] → (∀ j ∈ jobs, (Stat src j.1).isSome = true) →
      (∀ f, Outcome.fatal f ∉ (runWorker fp cfg src jobs st).2) →
      st.copiedBytes + totalBytesOf src (jobs.map Prod.fst) = cfg.totalBytes →
      (runWorker fp cfg src jobs st).1.progressCalls.head? =
        some (cfg.totalBytes, cfg.totalBytes) := by
  induction jobs with
  | nil => intro st h; exact absurd rfl h
  | cons j jobs ih =>
    obtain ⟨relPath, io⟩ := j
    intro st _ hstat hnf htot
    have hh := runWorker_head_not_fatal fp cfg src relPath io jobs st hnf
    have ht := runWorker_tail_not_fatal fp cfg src relPath io jobs st hnf
    obtain ⟨info, hs⟩ := Option.isSome_iff_exists.mp (hstat (relPath, io) (List.mem_cons_self _ _))
    have hp := processFile_progress fp cfg src relPath io st info hs hh
    simp only [List.map_cons] at htot
    rw [totalBytesOf_cons src relPath _ info hs] at htot
    rw [runWorker_cons fp cfg src relPath io jobs st hh]
    simp only
    cases jobs with
    | nil =>
      simp only [runWorker, List.map_nil] at htot ⊢
      rw [hp.2]
      have h0 : totalBytesOf src [] = 0 := rfl
      rw [h0] at htot
      have : st.copiedBytes + info.Size = cfg.totalBytes := by omega
      simp [addProgress, this]
    | cons j2 jobs2 =>
      apply ih _ (List.cons_ne_nil _ _) (fun j hj => hstat j (List.mem_cons_of_mem _ hj)) ht
      rw [hp.1]
      omega

/-- Claim C17, no final call: from `totalBytes = 0` of an empty file list, a run with one
worker returns with the counter at the total and no call of the progress callback; and a
run over the two files of the example with `workers = 0` returns, without a fatal condition
or a panic, with the counter at 0 of 10 bytes and no call of the callback. -/
theorem C17_no_final_report :
    totalBytesOf exampleSrc [] = 0 ∧
    runCopyWorkers sumBytes ⟨false, false, 0⟩ exampleSrc 1 32768 [] [] [] =
      ⟨⟨[], [], 0, []⟩, [], false⟩ ∧
    totalBytesOf exampleSrc ["a.txt", "dir/b.txt"] = 10 ∧
    runCopyWorkers sumBytes ⟨false, false, 10⟩ exampleSrc 0 32768
        [("a.txt", allOk 1000), ("dir/b.txt", allOk 1000)] [] [] =
      ⟨⟨[], [], 0, []⟩, [], false⟩ := by
  decide

/-- Claim C17, for at least one worker, a buffer of positive size and a file list that is
not empty: over a static source tree in which every listed file can be stat'ed, a run
without a fatal condition and with `totalBytes` the sum of the sizes of the listed files
does not panic and ends with the counter equal to `totalBytes` and the latest call of the
progress callback made with that value; the file at any place of the list has a size that
is not negative, and the counter after it is the counter before it plus that size. -/
theorem C17_progress_accounting (fp : List Nat → Nat) (cfg : Config) (src : FS)
    (workers bufSize : Int)
    (jobs : List (String × Answers)) (cache : GlobalCache) (dst : FS)
    (hw : 0 < workers) (hb : 0 < bufSize)
    (hne : jobs ≠ [])
    (hstat : ∀ j ∈ jobs, (Stat src j.1).isSome = true)
    (hnf : ∀ f, Outcome.fatal f ∉
      (runCopyWorkers fp cfg src workers bufSize jobs cache dst).outcomes)
    (htot : cfg.totalBytes = totalBytesOf src (jobs.map Prod.fst)) :
    (runCopyWorkers fp cfg src workers bufSize jobs cache dst).panicked = false ∧
    (runCopyWorkers fp cfg src workers bufSize jobs cache dst).state.copiedBytes =
      cfg.totalBytes ∧
    (runCopyWorkers fp cfg src workers bufSize jobs cache dst).state.progressCalls.head? =
      some (cfg.totalBytes, cfg.totalBytes) ∧
    ∀ pre relPath io post, jobs = pre ++ (relPath, io) :: post →
      ∃ info, Stat src relPath = some info ∧ 0 ≤ info.Size ∧
        (runCopyWorkers fp cfg src workers bufSize (pre ++ [(relPath, io)])
            cache dst).state.copiedBytes =
          (runCopyWorkers fp cfg src workers bufSize pre cache dst).state.copiedBytes +
            info.Size := by
  have hrun := fun jobs => runCopyWorkers_of_pos fp cfg src workers bufSize jobs cache dst hw hb
  simp only [hrun] at hnf ⊢
  refine ⟨trivial, ?_, ?_, ?_⟩
  · rw [runWorker_copiedBytes fp cfg src jobs _ hstat hnf, htot]
    simp
  · apply runWorker_progress_head fp cfg src jobs _ hne hstat hnf
    rw [htot]
    simp
  · intro pre relPath io post hj
    subst hj
    obtain ⟨info, hs⟩ := Option.isSome_iff_exists.mp
      (hstat (relPath, io) (by simp))
    refine ⟨info, hs, Stat_size_nonneg src relPath info hs, ?_⟩
    have hsplit : pre ++ (relPath, io) :: post = (pre ++ [(relPath, io)]) ++ post := by simp
    rw [hsplit] at hnf
    have h1 := runWorker_prefix_not_fatal fp cfg src (pre ++ [(relPath, io)]) post _ hnf
    have h0 := runWorker_prefix_not_fatal fp cfg src pre [(relPath, io)] _ h1
    rw [runWorker_append fp cfg src pre [(relPath, io)] _ h0] at h1 ⊢
    simp only
    have h2 : ∀ f, Outcome.fatal f ∉ (runWorker fp cfg src [(relPath, io)]
        (runWorker fp cfg src pre ⟨cache, dst, 0, []⟩).1).2 := by
      intro f hf
      exact h1 f (List.mem_append_right _ hf)
    have hh := runWorker_head_not_fatal fp cfg src relPath io [] _ h2
    rw [runWorker_cons fp cfg src relPath io [] _ hh]
    simp only [runWorker]
    exact (processFile_progress fp cfg src relPath io _ info hs hh).1

/-- Claim C17 on the two files of the example, none in the cache or at the destination, one
worker and a buffer of 32768 bytes. -/
theorem C17_progress_accounting_witness :
    (runCopyWorkers sumBytes ⟨false, false, 10⟩ exampleSrc 1 32768
      [("a.txt", allOk 1000), ("dir/b.txt", allOk 1000)] [] []).state.copiedBytes = 10 ∧
    (runCopyWorkers sumBytes ⟨false, false, 10⟩ exampleSrc 1 32768
      [("a.txt", allOk 1000), ("dir/b.txt", allOk 1000)] [] []).state.progressCalls.head? =
        some (10, 10) :=
  have h := C17_progress_accounting sumBytes ⟨false, false, 10⟩ exampleSrc 1 32768
    [("a.txt", allOk 1000), ("dir/b.txt", allOk 1000)] [] [] (by decide) (by decide)
    (List.cons_ne_nil _ _)
    (by decide)
    (by
      have ho : (runCopyWorkers sumBytes ⟨false, false, 10⟩ exampleSrc 1 32768
          [("a.txt", allOk 1000), ("dir/b.txt", allOk 1000)] [] []).outcomes =
            [.copied, .copied] := by
        decide
      rw [ho]
      simp)
    (by decide)
  ⟨h.2.1, h.2.2.1⟩

/-! ## C19: the trust put in the cache -/

/-- The fingerprint `pairBytes` has no collisions. -/
theorem pairBytes_injective : Function.Injective pairBytes := by
  intro a
  induction a with
  | nil =>
    intro b h
    cases b with
    | nil => rfl
    | cons y ys => simp [pairBytes] at h
  | cons x xs ih =>
    intro b h
    cases b with
    | nil => simp [pairBytes] at h
    | cons y ys =>
      simp only [pairBytes, add_left_inj, Nat.pair_eq_pair] at h
      rw [h.1, ih h.2]

/-- Claim C19, a copy that fails after the destination was created: in normal mode, with a
fingerprint without collisions, the entry of `a.txt` matching the source and no `a.txt` at
the destination, the trust holds before the step; the copy stops after two of three bytes
and the step ends on the fatal condition of the copy, with the cache as it was and a
regular file of two bytes at the destination, where the trust does not hold. -/
theorem C19_failed_copy_breaks_trust :
    Function.Injective pairBytes ∧
    Trust pairBytes threeByteSrc threeByteCache [] ∧
    processFile pairBytes ⟨false, false, 3⟩ threeByteSrc "a.txt" (copyFailsAfter 2 2000)
        ⟨threeByteCache, [], 0, []⟩ =
      (⟨threeByteCache, [("a.txt", ⟨[1, 2], true⟩)], 0, []⟩, .fatal .copy) ∧
    ¬ Trust pairBytes threeByteSrc threeByteCache [("a.txt", ⟨[1, 2], true⟩)] := by
  refine ⟨pairBytes_injective, ?_, by decide, ?_⟩
  · intro relPath file entry d _ _ _ _ hd
    simp [mget] at hd
  · intro h
    have := h "a.txt" ⟨[1, 2, 3], true⟩ ⟨3, pairBytes [1, 2, 3], 1000⟩ ⟨[1, 2], true⟩
      (by decide) (by decide) (by decide) (by decide) (by decide) (by decide)
    exact absurd this (by decide)

/-! ## C18: the order of arrival -/

/-- The decision reads the cache and the destination at the relative path only. -/
theorem checkFile_local (fp : List Nat → Nat) (cfg : Config) (src : FS) (relPath : String)
    (srcInfo : FileInfo) (io : Answers) (c c' : GlobalCache) (d d' : FS)
    (hc : IsUpToDate c relPath = IsUpToDate c' relPath)
    (hd : mget d relPath = mget d' relPath) :
    (checkFile fp cfg src relPath srcInfo io c d).1 =
      (checkFile fp cfg src relPath srcInfo io c' d').1 ∧
    IsUpToDate (checkFile fp cfg src relPath srcInfo io c d).2 relPath =
      IsUpToDate (checkFile fp cfg src relPath srcInfo io c' d').2 relPath := by
  unfold checkFile Stat FileHash
  simp only [hc, hd]
  repeat' split
  all_goals simp_all [IsUpToDate_Update]

/-- The copy branch reads the cache and the destination at the relative path only. -/
theorem copyFile_local (fp : List Nat → Nat) (cfg : Config) (src : FS) (relPath : String)
    (srcInfo : FileInfo) (io : Answers) (c c' : GlobalCache) (d d' : FS)
    (hc : IsUpToDate c relPath = IsUpToDate c' relPath)
    (hd : mget d relPath = mget d' relPath) :
    (copyFile fp cfg src relPath srcInfo io c d).2.2 =
      (copyFile fp cfg src relPath srcInfo io c' d').2.2 ∧
    mget (copyFile fp cfg src relPath srcInfo io c d).1 relPath =
      mget (copyFile fp cfg src relPath srcInfo io c' d').1 relPath ∧
    IsUpToDate (copyFile fp cfg src relPath srcInfo io c d).2.1 relPath =
      IsUpToDate (copyFile fp cfg src relPath srcInfo io c' d').2.1 relPath := by
  have hs : Stat d relPath = Stat d' relPath := by unfold Stat; rw [hd]
  unfold copyFile
  simp only [hs]
  by_cases h1 : (!io.mkdirAllOk) = true
  · simp only [if_pos h1]
    exact ⟨trivial, hd, hc⟩
  simp only [if_neg h1]
  by_cases h2 : ((Stat d' relPath).isSome && !io.removeOk) = true
  · simp only [if_pos h2]
    exact ⟨trivial, hd, hc⟩
  simp only [if_neg h2]
  by_cases h3 : (OpenWithRetry io.openSrc 5).err.isSome = true
  · simp only [if_pos h3]
    exact ⟨trivial, by simp [mget_mdel], hc⟩
  simp only [if_neg h3]
  by_cases h4 : (CreateWithRetry io.createDst 5).err.isSome = true
  · simp only [if_pos h4]
    exact ⟨trivial, by simp [mget_mdel], hc⟩
  simp only [if_neg h4]
  by_cases h5 : (!syncWithRetry io.syncOk) = true
  · simp only [if_pos h5]
    exact ⟨trivial, by simp [mget_mset], hc⟩
  simp only [if_neg h5]
  by_cases h6 : (!io.closeDstOk) = true
  · simp only [if_pos h6]
    exact ⟨trivial, by simp [mget_mset], hc⟩
  simp only [if_neg h6]
  by_cases h7 : (!io.closeSrcOk) = true
  · simp only [if_pos h7]
    exact ⟨trivial, by simp [mget_mset], hc⟩
  simp only [if_neg h7]
  by_cases h8 : io.copyErrAt.isSome = true
  · simp only [if_pos h8]
    exact ⟨trivial, by simp [mget_mset], hc⟩
  simp only [if_neg h8]
  by_cases h9 : (!cfg.noCache) = true
  · simp only [if_pos h9]
    exact ⟨trivial, by simp [mget_mset], by simp [IsUpToDate_Update]⟩
  · simp only [if_neg h9]
    exact ⟨trivial, by simp [mget_mset], hc⟩

/-- Processing a file reads the cache and the destination at its relative path only: from
two states that agree there, the outcome is the same and the states left agree there. -/
theorem processFile_local (fp : List Nat → Nat) (cfg : Config) (src : FS) (relPath : String)
    (io : Answers) (st st' : State)
    (hc : IsUpToDate st.cache relPath = IsUpToDate st'.cache relPath)
    (hd : mget st.dst relPath = mget st'.dst relPath) :
    (processFile fp cfg src relPath io st).2 = (processFile fp cfg src relPath io st').2 ∧
    IsUpToDate (processFile fp cfg src relPath io st).1.cache relPath =
      IsUpToDate (processFile fp cfg src relPath io st').1.cache relPath ∧
    mget (processFile fp cfg src relPath io st).1.dst relPath =
      mget (processFile fp cfg src relPath io st').1.dst relPath := by
  unfold processFile
  cases hs : Stat src relPath with
  | none => exact ⟨rfl, hc, hd⟩
  | some srcInfo =>
    have h1 := checkFile_local fp cfg src relPath srcInfo io st.cache st'.cache st.dst st'.dst
      hc hd
    have h2 := copyFile_local fp cfg src relPath srcInfo io
      (checkFile fp cfg src relPath srcInfo io st.cache st.dst).2
      (checkFile fp cfg src relPath srcInfo io st'.cache st'.dst).2 st.dst st'.dst h1.2 hd
    simp only [← h1.1]
    cases (checkFile fp cfg src relPath srcInfo io st.cache st.dst).1
    · exact ⟨rfl, h1.2, hd⟩
    · simp only [if_true]
      rcases hcp : copyFile fp cfg src relPath srcInfo io
          (checkFile fp cfg src relPath srcInfo io st.cache st.dst).2 st.dst with ⟨d1, c1, o1⟩
      rcases hcp' : copyFile fp cfg src relPath srcInfo io
          (checkFile fp cfg src relPath srcInfo io st'.cache st'.dst).2 st'.dst with
        ⟨d2, c2, o2⟩
      rw [hcp, hcp'] at h2
      simp only at h2
      obtain ⟨ho, hd2, hc2⟩ := h2
      subst ho
      cases o1 with
      | none => exact ⟨rfl, hc2, hd2⟩
      | some f => exact ⟨rfl, hc2, hd2⟩

/-- The outcome of a file does not change when another file is processed first. -/
theorem processFile_outcome_after (fp : List Nat → Nat) (cfg : Config) (src : FS)
    (r k : String) (io io' : Answers) (st : State) (hne : r ≠ k) :
    (processFile fp cfg src k io' (processFile fp cfg src r io st).1).2 =
      (processFile fp cfg src k io' st).2 := by
  have hf := processFile_frame fp cfg src r io st k hne
  exact (processFile_local fp cfg src k io' _ st hf.2 hf.1).1

/-- Over distinct relative paths, a run meets no fatal condition exactly when no file of
the list meets one when processed from the initial state. -/
theorem runWorker_not_fatal_iff (fp : List Nat → Nat) (cfg : Config) (src : FS)
    (jobs : List (String × Answers)) :
    ∀ st : State, (jobs.map Prod.fst).Nodup →
      ((∀ f, Outcome.fatal f ∉ (runWorker fp cfg src jobs st).2) ↔
        ∀ j ∈ jobs, ∀ f, (processFile fp cfg src j.1 j.2 st).2 ≠ .fatal f) := by
  induction jobs with
  | nil => intro st _; simp [runWorker]
  | cons j jobs ih =>
    obtain ⟨r, io⟩ := j
    intro st hnd
    simp only [List.map_cons, List.nodup_cons] at hnd
    have hother : ∀ j ∈ jobs, (processFile fp cfg src j.1 j.2
        (processFile fp cfg src r io st).1).2 = (processFile fp cfg src j.1 j.2 st).2 := by
      intro j hj
      apply processFile_outcome_after
      intro h
      exact hnd.1 (h ▸ List.mem_map_of_mem Prod.fst hj)
    constructor
    · intro hnf j hj f
      rcases List.mem_cons.mp hj with h | h
      · subst h
        exact runWorker_head_not_fatal fp cfg src r io jobs st hnf f
      · rw [← hother j h]
        exact (ih _ hnd.2).mp (runWorker_tail_not_fatal fp cfg src r io jobs st hnf) j h f
    · intro hall f
      have hh : ∀ f, (processFile fp cfg src r io st).2 ≠ .fatal f :=
        hall (r, io) (List.mem_cons_self _ _)
      rw [runWorker_cons fp cfg src r io jobs st hh]
      simp only [List.mem_cons, not_or]
      refine ⟨fun h => hh f h.symm, ?_⟩
      apply (ih _ hnd.2).mpr
      intro j hj g
      rw [hother j hj]
      exact hall j (List.mem_cons_of_mem _ hj) g

/-- Over distinct relative paths and without a fatal condition, the final state of a run at
a relative path is the state its own processing leaves from the initial state, and the
initial state at the paths that are not in the list. -/
theorem runWorker_final_at (fp : List Nat → Nat) (cfg : Config) (src : FS)
    (jobs : List (String × Answers)) :
    ∀ st : State, (jobs.map Prod.fst).Nodup →
      (∀ f, Outcome.fatal f ∉ (runWorker fp cfg src jobs st).2) →
      ∀ k : String,
        (∀ io, (k, io) ∈ jobs →
          IsUpToDate (runWorker fp cfg src jobs st).1.cache k =
            IsUpToDate (processFile fp cfg src k io st).1.cache k ∧
          mget (runWorker fp cfg src jobs st).1.dst k =
            mget (processFile fp cfg src k io st).1.dst k) ∧
        (k ∉ jobs.map Prod.fst →
          IsUpToDate (runWorker fp cfg src jobs st).1.cache k = IsUpToDate st.cache k ∧
          mget (runWorker fp cfg src jobs st).1.dst k = mget st.dst k) := by
  induction jobs with
  | nil => intro st _ _ k; simp [runWorker]
  | cons j jobs ih =>
    obtain ⟨r, io⟩ := j
    intro st hnd hnf k
    simp only [List.map_cons, List.nodup_cons] at hnd
    have hh := runWorker_head_not_fatal fp cfg src r io jobs st hnf
    have ht := runWorker_tail_not_fatal fp cfg src r io jobs st hnf
    have hi := ih (processFile fp cfg src r io st).1 hnd.2 ht k
    rw [runWorker_cons fp cfg src r io jobs st hh]
    simp only
    constructor
    · intro io' hmem
      rcases List.mem_cons.mp hmem with h | h
      · simp only [Prod.mk.injEq] at h
        obtain ⟨hk, hio⟩ := h
        subst hk hio
        exact hi.2 hnd.1
      · have hne : r ≠ k := by
          intro he
          exact hnd.1 (he ▸ List.mem_map_of_mem Prod.fst h)
        have hf := processFile_frame fp cfg src r io st k hne
        have hl := processFile_local fp cfg src k io' (processFile fp cfg src r io st).1 st
          hf.2 hf.1
        have h1 := hi.1 io' h
        exact ⟨h1.1.trans hl.2.1, h1.2.trans hl.2.2⟩
    · intro hk
      simp only [List.map_cons, List.mem_cons, not_or] at hk
      have hf := processFile_frame fp cfg src r io st k (fun h => hk.1 h.symm)
      have h1 := hi.2 hk.2
      exact ⟨h1.1.trans hf.2, h1.2.trans hf.1⟩

/-- Claim C18, a fatal condition: of two files, the first cannot get its directory created.
Taken first, it stops the worker before the other file is copied; taken second, the other
file is at the destination and in the cache. -/
theorem C18_fatal_depends_on_order :
    (runCopyWorkers sumBytes ⟨false, false, 10⟩ exampleSrc 1 32768
      [("a.txt", mkdirFails 1000), ("dir/b.txt", allOk 1000)] [] []) =
        ⟨⟨[], [], 0, []⟩, [.fatal .mkdirAll], false⟩ ∧
    (runCopyWorkers sumBytes ⟨false, false, 10⟩ exampleSrc 1 32768
      [("dir/b.txt", allOk 1000), ("a.txt", mkdirFails 1000)] [] []) =
        ⟨⟨[("dir/b.txt", ⟨5, 552, 1000⟩)], [("dir/b.txt", ⟨worldBytes, true⟩)], 5, []⟩,
          [.copied, .fatal .mkdirAll], false⟩ := by
  decide

/-- Claim C18, without a fatal condition: for a list of files with distinct relative paths,
each with the answers it gets, and the same list in another order of arrival, from the same
cache, source and destination, with at least one worker and a buffer of positive size in
both runs, a run over the first that meets no fatal condition makes the run over the second
meet none; the two final caches have the same entry at every relative path, hence the same
keys, and the two destinations the same file at every relative path. -/
theorem C18_order_independence (fp : List Nat → Nat) (cfg : Config) (src : FS)
    (workers1 bufSize1 workers2 bufSize2 : Int)
    (jobs1 jobs2 : List (String × Answers)) (cache : GlobalCache) (dst : FS)
    (hw1 : 0 < workers1) (hb1 : 0 < bufSize1) (hw2 : 0 < workers2) (hb2 : 0 < bufSize2)
    (hnd : (jobs1.map Prod.fst).Nodup)
    (hperm : jobs1.Perm jobs2)
    (hnf : ∀ f, Outcome.fatal f ∉
      (runCopyWorkers fp cfg src workers1 bufSize1 jobs1 cache dst).outcomes) :
    (∀ f, Outcome.fatal f ∉
      (runCopyWorkers fp cfg src workers2 bufSize2 jobs2 cache dst).outcomes) ∧
    (∀ k, IsUpToDate (runCopyWorkers fp cfg src workers1 bufSize1 jobs1 cache dst).state.cache k =
        IsUpToDate (runCopyWorkers fp cfg src workers2 bufSize2 jobs2 cache dst).state.cache k) ∧
    (∀ k, k ∈ Keys (runCopyWorkers fp cfg src workers1 bufSize1 jobs1 cache dst).state.cache ↔
        k ∈ Keys (runCopyWorkers fp cfg src workers2 bufSize2 jobs2 cache dst).state.cache) ∧
    (∀ k, mget (runCopyWorkers fp cfg src workers1 bufSize1 jobs1 cache dst).state.dst k =
        mget (runCopyWorkers fp cfg src workers2 bufSize2 jobs2 cache dst).state.dst k) := by
  rw [runCopyWorkers_of_pos fp cfg src workers1 bufSize1 jobs1 cache dst hw1 hb1] at hnf ⊢
  rw [runCopyWorkers_of_pos fp cfg src workers2 bufSize2 jobs2 cache dst hw2 hb2]
  simp only at hnf ⊢
  have hnd2 : (jobs2.map Prod.fst).Nodup := (hperm.map Prod.fst).nodup_iff.mp hnd
  have hnf2 : ∀ f, Outcome.fatal f ∉ (runWorker fp cfg src jobs2 ⟨cache, dst, 0, []⟩).2 := by
    apply (runWorker_not_fatal_iff fp cfg src jobs2 _ hnd2).mpr
    intro j hj
    exact (runWorker_not_fatal_iff fp cfg src jobs1 _ hnd).mp hnf j (hperm.mem_iff.mpr hj)
  have key : ∀ k,
      IsUpToDate (runWorker fp cfg src jobs1 ⟨cache, dst, 0, []⟩).1.cache k =
        IsUpToDate (runWorker fp cfg src jobs2 ⟨cache, dst, 0, []⟩).1.cache k ∧
      mget (runWorker fp cfg src jobs1 ⟨cache, dst, 0, []⟩).1.dst k =
        mget (runWorker fp cfg src jobs2 ⟨cache, dst, 0, []⟩).1.dst k := by
    intro k
    have f1 := runWorker_final_at fp cfg src jobs1 _ hnd hnf k
    have f2 := runWorker_final_at fp cfg src jobs2 _ hnd2 hnf2 k
    by_cases hk : k ∈ jobs1.map Prod.fst
    · obtain ⟨j, hj, hjk⟩ := List.mem_map.mp hk
      obtain ⟨r, io⟩ := j
      simp only at hjk
      subst hjk
      have a1 := f1.1 io hj
      have a2 := f2.1 io (hperm.mem_iff.mp hj)
      exact ⟨a1.1.trans a2.1.symm, a1.2.trans a2.2.symm⟩
    · have hk2 : k ∉ jobs2.map Prod.fst := fun h => hk ((hperm.map Prod.fst).mem_iff.mpr h)
      have a1 := f1.2 hk
      have a2 := f2.2 hk2
      exact ⟨a1.1.trans a2.1.symm, a1.2.trans a2.2.symm⟩
  refine ⟨hnf2, fun k => (key k).1, ?_, fun k => (key k).2⟩
  intro k
  rw [mem_Keys, mem_Keys, (key k).1]

/-- Claim C18 on the two files of the example in their two orders, four workers for the
first and one for the second: the same entry of `a.txt` in the two caches and the same file
`a.txt` at the two destinations. -/
theorem C18_order_independence_witness :
    IsUpToDate (runCopyWorkers sumBytes ⟨false, false, 10⟩ exampleSrc 4 32768
        [("a.txt", allOk 1000), ("dir/b.txt", allOk 2000)] [] []).state.cache "a.txt" =
      IsUpToDate (runCopyWorkers sumBytes ⟨false, false, 10⟩ exampleSrc 1 32768
        [("dir/b.txt", allOk 2000), ("a.txt", allOk 1000)] [] []).state.cache "a.txt" ∧
    mget (runCopyWorkers sumBytes ⟨false, false, 10⟩ exampleSrc 4 32768
        [("a.txt", allOk 1000), ("dir/b.txt", allOk 2000)] [] []).state.dst "a.txt" =
      mget (runCopyWorkers sumBytes ⟨false, false, 10⟩ exampleSrc 1 32768
        [("dir/b.txt", allOk 2000), ("a.txt", allOk 1000)] [] []).state.dst "a.txt" :=
  have h := C18_order_independence sumBytes ⟨false, false, 10⟩ exampleSrc 4 32768 1 32768
    [("a.txt", allOk 1000), ("dir/b.txt", allOk 2000)]
    [("dir/b.txt", allOk 2000), ("a.txt", allOk 1000)] [] []
    (by decide) (by decide) (by decide) (by decide) (by decide)
    (List.Perm.swap _ _ _)
    (by
      have ho : (runCopyWorkers sumBytes ⟨false, false, 10⟩ exampleSrc 4 32768
          [("a.txt", allOk 1000), ("dir/b.txt", allOk 2000)] [] []).outcomes =
            [.copied, .copied] := by
        decide
      rw [ho]
      simp)
  ⟨h.2.1 "a.txt", h.2.2.2 "a.txt"⟩

/-! ## C13: writing and reading the cache file -/

theorem bget_bdel (m : CacheData) (k k' : GoString) :
    bget (bdel m k) k' = if k = k' then none else bget m k' := by
  induction m with
  | nil => simp [bdel, bget]
  | cons p m ih =>
    obtain ⟨a, v⟩ := p
    by_cases h : a = k
    · subst h
      by_cases h' : a = k'
      · subst h'
        simpa [bdel] using ih
      · simp [bdel, bget, ih, h']
    · by_cases h' : a = k'
      · subst h'
        simp [bdel, bget, h, Ne.symm h]
      · simp [bdel, bget, h, h', ih]

theorem bget_bset (m : CacheData) (k k' : GoString) (v : CacheEntry) :
    bget (bset m k v) k' = if k = k' then some v else bget m k' := by
  by_cases h : k = k'
  · simp [bset, bget, h]
  · simp [bset, bget, h, bget_bdel]

/-- A key has a binding exactly when it is among the keys. -/
theorem mem_keysOf (m : CacheData) (k : GoString) :
    k ∈ keysOf m ↔ ∃ e, bget m k = some e := by
  unfold keysOf
  rw [List.mem_dedup]
  induction m with
  | nil => simp [bget]
  | cons p m ih =>
    obtain ⟨a, v⟩ := p
    by_cases h : a = k
    · simp [bget, h]
    · simp only [List.map_cons, List.mem_cons, bget, h, if_false]
      rw [← ih]
      constructor
      · rintro (h1 | h1)
        · exact absurd h1.symm h
        · exact h1
      · exact Or.inr

/-- Valid bytes are written and read back as they are. -/
theorem coerceUTF8_valid (s : List Nat) :
    ∀ skip, validUTF8 skip s = true → coerceUTF8 skip s = s := by
  induction s with
  | nil => intro skip _; cases skip <;> rfl
  | cons b rest ih =>
    intro skip h
    cases skip with
    | succ n =>
      simp only [validUTF8] at h
      simp only [coerceUTF8, ih n h]
    | zero =>
      simp only [validUTF8] at h
      simp only [coerceUTF8]
      cases hd : DecodeRuneSize (b :: rest) with
      | none => simp [hd] at h
      | some size =>
        simp only [hd] at h
        simp only [ih _ h]

/-- The map read from members taken from a map `m`, one for each of a list of keys that
are valid and bound in `m`. -/
theorem bget_Decode (m : CacheData) (ks : List GoString) :
    ∀ data : CacheData, (∀ a ∈ ks, validUTF8 0 a = true ∧ ∃ e, bget m a = some e) →
      ∀ k, bget (Decode (ks.filterMap
          (fun k => (bget m k).map (fun e => (coerceUTF8 0 k, e)))) data) k =
        if k ∈ ks then bget m k else bget data k := by
  induction ks with
  | nil => intro data _ k; simp [Decode]
  | cons a ks ih =>
    intro data hks k
    obtain ⟨hva, e, he⟩ := hks a (List.mem_cons_self _ _)
    have hrest : ∀ a ∈ ks, validUTF8 0 a = true ∧ ∃ e, bget m a = some e :=
      fun a ha => hks a (List.mem_cons_of_mem _ ha)
    have hstep : Decode ((a :: ks).filterMap
          (fun k => (bget m k).map (fun e => (coerceUTF8 0 k, e)))) data =
        Decode (ks.filterMap (fun k => (bget m k).map (fun e => (coerceUTF8 0 k, e))))
          (bset data a e) := by
      simp [Decode, List.filterMap_cons, he, coerceUTF8_valid a 0 hva]
    rw [hstep, ih (bset data a e) hrest k, bget_bset]
    by_cases h1 : k ∈ ks
    · simp [h1]
    · by_cases h2 : a = k
      · subst h2
        simp [h1, he]
      · have h3 : ¬ k = a := fun h => h2 h.symm
        simp [h1, h2, h3]

/-- Claim C13, a key that is not valid UTF-8: the map with the one key of the byte `0xFF`
is written with the key U+FFFD and read back with the three bytes of that rune as its key;
the key `0xFF` has no entry any more. -/
theorem C13_invalid_key_is_replaced :
    validUTF8 0 [0xFF] = false ∧
    NewGlobalCache (some (SaveCache [([0xFF], ⟨1, 2, 3⟩)])) =
      [([0xEF, 0xBF, 0xBD], ⟨1, 2, 3⟩)] ∧
    bget [([0xFF], ⟨1, 2, 3⟩)] [0xFF] = some ⟨1, 2, 3⟩ ∧
    bget (NewGlobalCache (some (SaveCache [([0xFF], ⟨1, 2, 3⟩)]))) [0xFF] = none := by
  decide

/-- Claim C13, for keys that are valid UTF-8: a map whose keys are all valid UTF-8, written
by `SaveCache` to a file that can be created and written and read from that file by
`NewGlobalCache`, has at every key the entry it had. -/
theorem C13_round_trip_valid_keys (m : CacheData)
    (hvalid : ∀ p ∈ m, validUTF8 0 p.1 = true) :
    ∀ k, bget (NewGlobalCache (some (SaveCache m))) k = bget m k := by
  intro k
  have hks : ∀ a ∈ (keysOf m).insertionSort (fun a b => lexLe a b = true),
      validUTF8 0 a = true ∧ ∃ e, bget m a = some e := by
    intro a ha
    have ha1 : a ∈ keysOf m := (List.perm_insertionSort _ _).mem_iff.mp ha
    refine ⟨?_, (mem_keysOf m a).mp ha1⟩
    unfold keysOf at ha1
    rw [List.mem_dedup] at ha1
    obtain ⟨p, hp, hpa⟩ := List.mem_map.mp ha1
    rw [← hpa]
    exact hvalid p hp
  unfold NewGlobalCache SaveCache Marshal
  simp only
  rw [bget_Decode m _ [] hks k]
  by_cases h : k ∈ (keysOf m).insertionSort (fun a b => lexLe a b = true)
  · simp [h]
  · simp only [h, if_false]
    have h1 : k ∉ keysOf m := fun hk => h ((List.perm_insertionSort _ _).mem_iff.mpr hk)
    rw [mem_keysOf] at h1
    cases hb : bget m k with
    | none => rfl
    | some e => exact absurd ⟨e, hb⟩ h1

/-- Claim C13 on a map with the keys `a.txt` and `é`, the latter of two bytes. -/
theorem C13_round_trip_valid_keys_witness :
    bget (NewGlobalCache (some (SaveCache
        [([0x61, 0x2E, 0x74, 0x78, 0x74], ⟨5, 532, 1000⟩), ([0xC3, 0xA9], ⟨0, 0, -1⟩)])))
        [0xC3, 0xA9] = some ⟨0, 0, -1⟩ :=
  (C13_round_trip_valid_keys
    [([0x61, 0x2E, 0x74, 0x78, 0x74], ⟨5, 532, 1000⟩), ([0xC3, 0xA9], ⟨0, 0, -1⟩)]
    (by decide) [0xC3, 0xA9]).trans (by decide)

end CacheCopy
